import Mathlib

/-!
Shallow embedding of the aide-frame documentation viewer
(`docs_viewer.py`) and PWA icon generator (`icon_generator.py`),
together with proofs about the claims of the specification.

File-system effects are modelled by explicit environments of pure
functions (directory listings, file contents as lists of lines,
path resolution), and the icon generator's writes by an explicit
state of file contents and created directories.

The Python string primitives are modelled by structural recursion over
character lists, so that every definition evaluates on concrete inputs.
-/

/-! ## Python string primitives -/

/-- Python `s.startswith(pre)`. -/
def pyStartsWith (s pre : String) : Bool :=
  pre.toList.isPrefixOf s.toList

/-- Python `s.endswith(suf)`. -/
def pyEndsWith (s suf : String) : Bool :=
  suf.toList.reverse.isPrefixOf s.toList.reverse

/-- The characters stripped by Python `str.strip()` (ASCII whitespace). -/
def isPySpace (c : Char) : Bool :=
  c == ' ' || c == '\t' || c == '\n' || c == '\r' || c == Char.ofNat 11 || c == Char.ofNat 12

/-- Python `s.strip()`. -/
def pyStrip (s : String) : String :=
  (((s.toList.dropWhile isPySpace).reverse.dropWhile isPySpace).reverse).asString

/-- Replacement of the leftmost non-overlapping occurrences, fuelled by the
input length (the fuel never runs out on the initial call). -/
def pyReplaceGo (pat rep : List Char) : Nat → List Char → List Char
  | 0, rest => rest
  | _, [] => []
  | fuel + 1, c :: cs =>
    if !pat.isEmpty && pat.isPrefixOf (c :: cs) then
      rep ++ pyReplaceGo pat rep fuel (cs.drop (pat.length - 1))
    else c :: pyReplaceGo pat rep fuel cs

/-- Python `s.replace(pat, rep)` (all non-overlapping occurrences, left to
right). -/
def pyReplace (s pat rep : String) : String :=
  (pyReplaceGo pat.toList rep.toList s.toList.length s.toList).asString

/-- Split at every occurrence of a separator character, as Python
`str.split(sep)` for a one-character separator. -/
def splitOnChar (sep : Char) : List Char → List (List Char)
  | [] => [[]]
  | c :: cs =>
    match splitOnChar sep cs with
    | [] => [[c]]
    | h :: t => if c == sep then [] :: h :: t else (c :: h) :: t

/-- Python `sep.join(parts)`. -/
def sepJoin (sep : String) : List String → String
  | [] => ""
  | a :: as => as.foldl (fun acc s => acc ++ sep ++ s) a

/-- `os.path.basename`: the part after the last `/`. -/
def pyBasename (p : String) : String :=
  ((splitOnChar '/' p.toList).getLastD []).asString

/-- `os.path.join` on a POSIX system, for the shapes used in the source:
an absolute second component replaces the first, otherwise the parts are
joined with a single `/`. -/
def pyJoin (a b : String) : String :=
  if pyStartsWith b "/" then b
  else if a == "" then b
  else if pyEndsWith a "/" then a ++ b
  else a ++ "/" ++ b

/-- Python `str.title()` (ASCII): an alphabetic character is uppercased when
the previous character is not alphabetic and lowercased otherwise. -/
def pyTitle (s : String) : String :=
  ((s.toList.foldl
      (fun (acc : List Char × Bool) c =>
        (((if c.isAlpha then (if acc.2 then c.toLower else c.toUpper) else c)) :: acc.1,
          c.isAlpha))
      ([], false)).1).reverse.asString

/-- Occurrence of `pat` as a contiguous run starting at some position. -/
def substrSearch (pat : List Char) : List Char → Bool
  | [] => pat.isEmpty
  | c :: cs => pat.isPrefixOf (c :: cs) || substrSearch pat cs

/-- Python `'..' in filename`: substring test. -/
def hasDotDot (s : String) : Bool :=
  substrSearch "..".toList s.toList

/-- Python `c in s` for a single character. -/
def pyContainsChar (s : String) (c : Char) : Bool :=
  s.toList.contains c

/-- Lexicographic comparison of character lists by code point: Python
`<=` on strings. -/
def charListLe : List Char → List Char → Bool
  | [], _ => true
  | _ :: _, [] => false
  | a :: as, b :: bs => if a == b then charListLe as bs else decide (a < b)

/-- Python `s <= t` on strings. -/
def strLe (s t : String) : Bool :=
  charListLe s.toList t.toList

/-! ## docs_viewer.extract_title_and_description -/

/-- Fallback title of `extract_title_and_description`: basename, with every
occurrence of `.md` removed by `str.replace`, separators turned into spaces,
then `title()`-cased. -/
def fallback_title (filepath : String) : String :=
  pyTitle (pyReplace (pyReplace (pyReplace (pyBasename filepath) ".md" "") "-" " ") "_" " ")

def isTerminatorChar (c : Char) : Bool :=
  c == '.' || c == '!' || c == '?'

/-- The inner sentence scan of `extract_title_and_description`: the first
index `i` with a sentence terminator, `i > 10`, and either at the end of the
text or followed by a space or newline, yields the prefix up to `i`. -/
def findSentence (combined : String) : Option String :=
  let cs := combined.toList
  match (List.range cs.length).find? (fun i =>
      isTerminatorChar (cs.getD i ' ') && decide (10 < i) &&
        (decide (cs.length ≤ i + 1) || cs.getD (i + 1) ' ' == ' ' || cs.getD (i + 1) ' ' == '\n')) with
  | some i => some ((cs.take (i + 1)).asString)
  | none => none

/-- The description-collection loop of `extract_title_and_description`,
started after the title line, returning the collected lines and the
description found, if any. -/
def descStep : List String → List String → List String × Option String
  | [], acc => (acc, none)
  | line :: rest, acc =>
    let stripped := pyStrip line
    if stripped == "" && acc.isEmpty then descStep rest acc
    else if pyStartsWith stripped "#" || pyStartsWith stripped "```" ||
        pyStartsWith stripped "---" then
      (acc, none)
    else if pyStartsWith stripped "|" || pyStartsWith stripped "-" ||
        pyStartsWith stripped "*" then
      if acc.isEmpty then descStep rest acc else (acc, none)
    else
      let acc' := if stripped == "" then acc else acc ++ [stripped]
      match findSentence (sepJoin " " acc') with
      | some d => (acc', some d)
      | none => descStep rest acc'

/-- The title-finding loop: skip lines until the first one starting with
`# `; its remainder (stripped) is the title, and the following lines feed
the description collection. -/
def splitTitle : List String → Option (String × List String)
  | [] => none
  | line :: rest =>
    if pyStartsWith line "# " then some (pyStrip (line.toList.drop 2).asString, rest)
    else splitTitle rest

/-- `extract_title_and_description`, over the file's lines (`none` when the
file is unreadable). Returns the title (with filename fallback when no
non-empty H1 title was found) and the optional description. -/
def extract_title_and_description (lines? : Option (List String)) (filepath : String) :
    String × Option String :=
  let td : Option String × Option String :=
    match lines? with
    | none => (none, none)
    | some lines =>
      match splitTitle lines with
      | none => (none, none)
      | some (t, rest) => (some t, (descStep rest []).2)
  match td.1 with
  | some t => if t == "" then (fallback_title filepath, td.2) else (t, td.2)
  | none => (fallback_title filepath, td.2)

/-- The description lines actually collected by
`extract_title_and_description` for given file lines. -/
def collected_desc_lines (lines? : Option (List String)) : List String :=
  match lines? with
  | none => []
  | some lines =>
    match splitTitle lines with
    | none => []
    | some (_, rest) => (descStep rest []).1

/-- The description rule exactly as claim C2 words it: the prefix at the
first sentence terminator occurring at or after the 11th character
(0-based index at least 10) that is not immediately followed by a
non-whitespace character. -/
def claimDescriptionRule (combined : String) : Option String :=
  let cs := combined.toList
  match (List.range cs.length).find? (fun i =>
      isTerminatorChar (cs.getD i ' ') && decide (9 < i) &&
        (decide (cs.length ≤ i + 1) || (cs.getD (i + 1) ' ').isWhitespace)) with
  | some i => some ((cs.take (i + 1)).asString)
  | none => none

/-- The fallback-title rule exactly as claim C6 words it: base name with its
(final) extension stripped, separators replaced by spaces, title-cased. -/
def claimFallbackTitle (filepath : String) : String :=
  let base := pyBasename filepath
  let parts := splitOnChar '.' base.toList
  let stem := if parts.length ≤ 1 then base else sepJoin "." (parts.dropLast.map List.asString)
  pyTitle (pyReplace (pyReplace stem "-" " ") "_" " ")

/-! ## MD5 (`hashlib.md5(...).hexdigest()`), over byte lists -/

def M32 : Nat := 4294967296

def not32 (x : Nat) : Nat := x ^^^ 0xffffffff

def rotl32 (x s : Nat) : Nat := ((x <<< s) ||| (x >>> (32 - s))) % M32

/-- Per-round constants `K[i] = floor(2^32 * abs(sin(i+1)))` of RFC 1321. -/
def md5K : List Nat :=
  [0xd76aa478, 0xe8c7b756, 0x242070db, 0xc1bdceee,
   0xf57c0faf, 0x4787c62a, 0xa8304613, 0xfd469501,
   0x698098d8, 0x8b44f7af, 0xffff5bb1, 0x895cd7be,
   0x6b901122, 0xfd987193, 0xa679438e, 0x49b40821,
   0xf61e2562, 0xc040b340, 0x265e5a51, 0xe9b6c7aa,
   0xd62f105d, 0x02441453, 0xd8a1e681, 0xe7d3fbc8,
   0x21e1cde6, 0xc33707d6, 0xf4d50d87, 0x455a14ed,
   0xa9e3e905, 0xfcefa3f8, 0x676f02d9, 0x8d2a4c8a,
   0xfffa3942, 0x8771f681, 0x6d9d6122, 0xfde5380c,
   0xa4beea44, 0x4bdecfa9, 0xf6bb4b60, 0xbebfbc70,
   0x289b7ec6, 0xeaa127fa, 0xd4ef3085, 0x04881d05,
   0xd9d4d039, 0xe6db99e5, 0x1fa27cf8, 0xc4ac5665,
   0xf4292244, 0x432aff97, 0xab9423a7, 0xfc93a039,
   0x655b59c3, 0x8f0ccc92, 0xffeff47d, 0x85845dd1,
   0x6fa87e4f, 0xfe2ce6e0, 0xa3014314, 0x4e0811a1,
   0xf7537e82, 0xbd3af235, 0x2ad7d2bb, 0xeb86d391]

/-- Per-round left-rotation amounts of RFC 1321. -/
def md5S : List Nat :=
  [7, 12, 17, 22, 7, 12, 17, 22, 7, 12, 17, 22, 7, 12, 17, 22,
   5, 9, 14, 20, 5, 9, 14, 20, 5, 9, 14, 20, 5, 9, 14, 20,
   4, 11, 16, 23, 4, 11, 16, 23, 4, 11, 16, 23, 4, 11, 16, 23,
   6, 10, 15, 21, 6, 10, 15, 21, 6, 10, 15, 21, 6, 10, 15, 21]

/-- Little-endian 32-bit word `g` of a 64-byte block. -/
def md5Word (block : List Nat) (g : Nat) : Nat :=
  block.getD (4 * g) 0 + 256 * block.getD (4 * g + 1) 0 +
    65536 * block.getD (4 * g + 2) 0 + 16777216 * block.getD (4 * g + 3) 0

def md5Round (block : List Nat) (st : Nat × Nat × Nat × Nat) (i : Nat) : Nat × Nat × Nat × Nat :=
  let a := st.1
  let b := st.2.1
  let c := st.2.2.1
  let d := st.2.2.2
  let fg : Nat × Nat :=
    if i < 16 then ((b &&& c) ||| (not32 b &&& d), i)
    else if i < 32 then ((d &&& b) ||| (not32 d &&& c), (5 * i + 1) % 16)
    else if i < 48 then (b ^^^ c ^^^ d, (3 * i + 5) % 16)
    else (c ^^^ (b ||| not32 d), (7 * i) % 16)
  let f := (fg.1 + a + md5K.getD i 0 + md5Word block fg.2) % M32
  (d, (b + rotl32 f (md5S.getD i 0)) % M32, b, c)

def md5ProcessBlock (st : Nat × Nat × Nat × Nat) (block : List Nat) : Nat × Nat × Nat × Nat :=
  let r := (List.range 64).foldl (md5Round block) st
  ((st.1 + r.1) % M32, (st.2.1 + r.2.1) % M32,
   (st.2.2.1 + r.2.2.1) % M32, (st.2.2.2 + r.2.2.2) % M32)

/-- Process all 64-byte blocks; the fuel is the byte count, ample since
each round consumes 64 bytes. -/
def md5BlocksGo : Nat → Nat × Nat × Nat × Nat → List Nat → Nat × Nat × Nat × Nat
  | 0, st, _ => st
  | _ + 1, st, [] => st
  | fuel + 1, st, b :: bs =>
    md5BlocksGo fuel (md5ProcessBlock st ((b :: bs).take 64)) ((b :: bs).drop 64)

/-- RFC 1321 padding: a `0x80` byte, zeros to 56 mod 64, then the bit
length as 8 little-endian bytes. -/
def md5Pad (msg : List Nat) : List Nat :=
  let len := msg.length
  let zeros := (120 - (len + 1) % 64) % 64
  let bitLen := (8 * len) % (2 ^ 64)
  msg ++ 0x80 :: (List.replicate zeros 0 ++ (List.range 8).map (fun i => (bitLen >>> (8 * i)) % 256))

def hexDigitChar (n : Nat) : Char := "0123456789abcdef".toList.getD n '0'

def byteHexChars (b : Nat) : List Char := [hexDigitChar (b / 16), hexDigitChar (b % 16)]

def wordLEBytes (w : Nat) : List Nat :=
  [w % 256, w / 256 % 256, w / 65536 % 256, w / 16777216 % 256]

def md5DigestBytes (msg : List Nat) : List Nat :=
  let padded := md5Pad msg
  let st := md5BlocksGo padded.length (0x67452301, 0xefcdab89, 0x98badcfe, 0x10325476) padded
  wordLEBytes st.1 ++ wordLEBytes st.2.1 ++ wordLEBytes st.2.2.1 ++ wordLEBytes st.2.2.2

/-- The characters of `hexdigest()`. -/
def md5HexChars (msg : List Nat) : List Char :=
  (md5DigestBytes msg).flatMap byteHexChars

/-- UTF-8 encoding of one character. -/
def utf8Bytes (c : Char) : List Nat :=
  let n := c.toNat
  if n < 128 then [n]
  else if n < 2048 then [192 + n / 64, 128 + n % 64]
  else if n < 65536 then [224 + n / 4096, 128 + n / 64 % 64, 128 + n % 64]
  else [240 + n / 262144, 128 + n / 4096 % 64, 128 + n / 64 % 64, 128 + n % 64]

/-- `str.encode()`: UTF-8 bytes. -/
def strBytes (s : String) : List Nat := s.toList.flatMap utf8Bytes

/-! ## icon_generator configuration and hash -/

/-- A Python float value as an exact fraction (all values reachable from
the source's defaults and JSON configuration files are finite decimals). -/
structure PyFrac where
  num : Int
  den : Nat
deriving DecidableEq

/-- The `pwa.icon` configuration dict, restricted to its seven
hash-relevant fields; `none` models a missing key. Text and colour values
are strings, the two size values JSON numbers. -/
structure IconConfig where
  background : Option String := none
  line1_text : Option String := none
  line1_color : Option String := none
  line1_size : Option PyFrac := none
  line2_text : Option String := none
  line2_color : Option String := none
  line2_size : Option PyFrac := none
deriving DecidableEq

/-- The full PWA configuration dict as used by `ensure_icons`. -/
structure PwaConfig where
  icon : IconConfig := {}
  theme_color : Option String := none
deriving DecidableEq

/-- Four lowercase hex digits, as in a JSON `\u` escape. -/
def u4Hex (n : Nat) : String :=
  [hexDigitChar (n / 4096 % 16), hexDigitChar (n / 256 % 16),
   hexDigitChar (n / 16 % 16), hexDigitChar (n % 16)].asString

/-- `json.dumps` escaping of one character (default `ensure_ascii=True`,
non-ASCII escaped, astral characters as surrogate pairs). -/
def jsonEscapeChar (c : Char) : String :=
  if c == '"' then "\\\""
  else if c == '\\' then "\\\\"
  else if c == '\n' then "\\n"
  else if c == '\t' then "\\t"
  else if c == '\r' then "\\r"
  else if c.toNat == 8 then "\\b"
  else if c.toNat == 12 then "\\f"
  else if c.toNat < 32 then "\\u" ++ u4Hex c.toNat
  else if c.toNat < 127 then String.singleton c
  else if c.toNat < 65536 then "\\u" ++ u4Hex c.toNat
  else
    let v := c.toNat - 65536
    "\\u" ++ u4Hex (55296 + v / 1024) ++ "\\u" ++ u4Hex (56320 + v % 1024)

/-- A JSON string literal as `json.dumps` renders it. -/
def jsonStr (s : String) : String :=
  "\"" ++ String.join (s.toList.map jsonEscapeChar) ++ "\""

def fracDigitsAux : Nat → Nat → Nat → String
  | 0, _, _ => ""
  | _, 0, _ => ""
  | fuel + 1, r, d =>
    let r10 := r * 10
    toString (r10 / d) ++ fracDigitsAux fuel (r10 % d) d

/-- A JSON number as `json.dumps` renders a Python float: decimal
expansion, exact for terminating decimals (all values reachable from the
source's defaults and configuration files). -/
def fracToJson (q : PyFrac) : String :=
  let sign := if q.num < 0 then "-" else ""
  let n := q.num.natAbs
  let d := q.den
  if n % d == 0 then sign ++ toString (n / d) ++ ".0"
  else sign ++ toString (n / d) ++ "." ++ fracDigitsAux 17 (n % d) d

/-- `theme_color or '#2563eb'`. -/
def theme_or_default (theme_color : String) : String :=
  if theme_color == "" then "#2563eb" else theme_color

/-- `json.dumps(config_for_hash, sort_keys=True)` for the seven-field dict
built by `_compute_icon_hash`, with the documented defaults substituted
for missing fields; keys are in sorted order. -/
def config_for_hash_str (icon_config : IconConfig) (theme_color : String) : String :=
  "\x7b" ++
  "\"background\": " ++ jsonStr (icon_config.background.getD (theme_or_default theme_color)) ++ ", " ++
  "\"line1_color\": " ++ jsonStr (icon_config.line1_color.getD "#94a3b8") ++ ", " ++
  "\"line1_size\": " ++ fracToJson (icon_config.line1_size.getD ⟨1, 4⟩) ++ ", " ++
  "\"line1_text\": " ++ jsonStr (icon_config.line1_text.getD "aide") ++ ", " ++
  "\"line2_color\": " ++ jsonStr (icon_config.line2_color.getD "#ffffff") ++ ", " ++
  "\"line2_size\": " ++ fracToJson (icon_config.line2_size.getD ⟨9, 20⟩) ++ ", " ++
  "\"line2_text\": " ++ jsonStr (icon_config.line2_text.getD "") ++
  "\x7d"

/-- `_compute_icon_hash`: the first 12 characters of the MD5 hexdigest of
the canonical configuration serialization. -/
def compute_icon_hash (icon_config : IconConfig) (theme_color : String) : String :=
  ((md5HexChars (strBytes (config_for_hash_str icon_config theme_color))).take 12).asString

/-! ## icon_generator SVG generation and ensure_icons -/

/-- Python `int()` on a fraction: truncation toward zero. -/
def pyInt (q : PyFrac) : Int :=
  Int.sign q.num * (q.num.natAbs / q.den : Nat)

/-- Multiplication of a fraction by the icon size. -/
def mulNatFrac (n : Nat) (q : PyFrac) : PyFrac :=
  ⟨(n : Int) * q.num, q.den⟩

/-- `_escape_xml`. -/
def escape_xml (text : String) : String :=
  pyReplace (pyReplace (pyReplace (pyReplace (pyReplace text
    "&" "&amp;") "<" "&lt;") ">" "&gt;") "\"" "&quot;")
    (String.singleton (Char.ofNat 39)) "&apos;"

/-- `_generate_svg`: the icon SVG, with the configuration hash embedded as
the leading comment line. -/
def generate_svg (size : Nat) (icon_config : IconConfig) (theme_color : String)
    (config_hash : String) : String :=
  let background := icon_config.background.getD (theme_or_default theme_color)
  let line1_text := icon_config.line1_text.getD "aide"
  let line1_color := icon_config.line1_color.getD "#94a3b8"
  let line1_size := icon_config.line1_size.getD ⟨1, 4⟩
  let line2_text := icon_config.line2_text.getD ""
  let line2_color := icon_config.line2_color.getD "#ffffff"
  let line2_size := icon_config.line2_size.getD ⟨9, 20⟩
  let font_size_1 := pyInt (mulNatFrac size line1_size)
  let font_size_2 := pyInt (mulNatFrac size line2_size)
  let y1 := pyInt (mulNatFrac size ⟨7, 20⟩)
  let y2 := pyInt (mulNatFrac size ⟨7, 10⟩)
  let cx := size / 2
  let sizeS := toString size
  let svg_lines : List String :=
    ["<!-- aide-icon-hash: " ++ config_hash ++ " -->",
     "<svg xmlns=\"http://www.w3.org/2000/svg\" width=\"" ++ sizeS ++ "\" height=\"" ++ sizeS ++
       "\" viewBox=\"0 0 " ++ sizeS ++ " " ++ sizeS ++ "\">",
     "  <rect width=\"" ++ sizeS ++ "\" height=\"" ++ sizeS ++ "\" fill=\"" ++ background ++ "\"/>"]
    ++ (if !(line1_text == "") then
          ["  <text x=\"" ++ toString cx ++ "\" y=\"" ++ toString y1 ++
            "\" font-family=\"Arial, Helvetica, sans-serif\" font-size=\"" ++ toString font_size_1 ++
            "\" font-style=\"italic\" fill=\"" ++ line1_color ++
            "\" text-anchor=\"middle\">" ++ escape_xml line1_text ++ "</text>"]
        else [])
    ++ (if !(line2_text == "") then
          ["  <text x=\"" ++ toString cx ++ "\" y=\"" ++ toString y2 ++
            "\" font-family=\"Arial, Helvetica, sans-serif\" font-size=\"" ++ toString font_size_2 ++
            "\" font-weight=\"bold\" fill=\"" ++ line2_color ++
            "\" text-anchor=\"middle\">" ++ escape_xml line2_text ++ "</text>"]
        else [])
    ++ ["</svg>", ""]
  sepJoin "\n" svg_lines

/-- The file system as `ensure_icons` observes it: file contents by path,
plus the set of existing directories. -/
structure FSState where
  files : String → Option String
  dirs : String → Bool

def isHexLowerChar (c : Char) : Bool :=
  (decide ('0' ≤ c) && decide (c ≤ '9')) || (decide ('a' ≤ c) && decide (c ≤ 'f'))

/-- One attempted match of the pattern `<!-- aide-icon-hash: ([a-f0-9]+) -->`
anchored at the start of `cs`. -/
def hashAt (cs : List Char) : Option String :=
  let marker := "<!-- aide-icon-hash: ".toList
  if marker.isPrefixOf cs then
    let rest := cs.drop marker.length
    let run := rest.takeWhile isHexLowerChar
    if !run.isEmpty && " -->".toList.isPrefixOf (rest.drop run.length) then some run.asString
    else none
  else none

/-- `re.search` for the hash pattern: leftmost match wins. -/
def searchIconHash : List Char → Option String
  | [] => none
  | c :: cs =>
    match hashAt (c :: cs) with
    | some h => some h
    | none => searchIconHash cs

/-- `_extract_hash_from_svg`: `none` when the file is absent, otherwise the
first embedded hash marker, if any. -/
def extract_hash_from_svg (files : String → Option String) (svg_path : String) : Option String :=
  match files svg_path with
  | none => none
  | some content => searchIconHash content.toList

def setFile (files : String → Option String) (p content : String) : String → Option String :=
  fun q => if q == p then some content else files q

/-- The directory and all its ancestors, as `os.makedirs` creates them. -/
def pathAncestors (p : String) : List String :=
  let parts := (splitOnChar '/' p.toList).map List.asString
  (List.range parts.length).map (fun i => sepJoin "/" (parts.take (i + 1)))

def mkdirsAll (dirs : String → Bool) (p : String) : String → Bool :=
  fun q => if (pathAncestors p).contains q then true else dirs q

/-- Python truthiness of `dict.get(key)` for a string-valued key. -/
def pyTruthyOptStr (v : Option String) : Bool :=
  match v with
  | none => false
  | some s => !(s == "")

/-- `ensure_icons`, as a function of the file-system state; the returned
`Bool` is the function's return value. Writes succeed in this model. -/
def ensure_icons (app_dir : String) (pwa_config : PwaConfig) (force : Bool) (st : FSState) :
    Bool × FSState :=
  let icon_config := pwa_config.icon
  if !pyTruthyOptStr icon_config.line2_text then (false, st)
  else
    let icons_dir := pyJoin (pyJoin app_dir "static") "icons"
    let icon_192_path := pyJoin icons_dir "icon-192.svg"
    let icon_512_path := pyJoin icons_dir "icon-512.svg"
    let theme_color := pwa_config.theme_color.getD "#2563eb"
    let expected_hash := compute_icon_hash icon_config theme_color
    if !force &&
        extract_hash_from_svg st.files icon_192_path == some expected_hash &&
        extract_hash_from_svg st.files icon_512_path == some expected_hash then
      (false, st)
    else
      let svg_192 := generate_svg 192 icon_config theme_color expected_hash
      let svg_512 := generate_svg 512 icon_config theme_color expected_hash
      (true,
       { files := setFile (setFile st.files icon_192_path svg_192) icon_512_path svg_512,
         dirs := mkdirsAll st.dirs icons_dir })

/-! ## docs_viewer structures and sorting -/

/-- One document entry of a section (`{"path": ..., "title": ...}` with the
optional description key and the framework flag). -/
structure DocEntry where
  path : String
  title : String
  description : Option String := none
  framework : Bool := false
deriving DecidableEq

/-- One section of the structure (`{"name": ..., "docs": [...]}`). -/
structure Sect where
  name : String
  docs : List DocEntry
  framework : Bool := false
deriving DecidableEq

/-- Lexicographic order on the sort keys; every key used by the source is
encoded as such a 4-tuple, order-isomorphically to Python tuple
comparison. -/
def key4Le (x y : Nat × Nat × Nat × String) : Bool :=
  decide (x.1 < y.1) || (decide (x.1 = y.1) &&
    (decide (x.2.1 < y.2.1) || (decide (x.2.1 = y.2.1) &&
      (decide (x.2.2.1 < y.2.2.1) || (decide (x.2.2.1 = y.2.2.1) &&
        strLe x.2.2.2 y.2.2.2)))))

/-- Stable insertion: the new element goes after every existing element
that compares `le` to it. -/
def stableInsert {α : Type} (le : α → α → Bool) (x : α) : List α → List α
  | [] => [x]
  | y :: ys => if le y x then y :: stableInsert le x ys else x :: y :: ys

/-- Python `list.sort(key=...)` is a stable sort by the key; any stable
sort by a total preorder computes the same list, here stable insertion
sort processing the input left to right. -/
def stableSort {α : Type} (le : α → α → Bool) (l : List α) : List α :=
  l.foldl (fun acc x => stableInsert le x acc) []

def sortByKey {α : Type} (key : α → Nat × Nat × Nat × String) (l : List α) : List α :=
  stableSort (fun a b => key4Le (key a) (key b)) l

/-- Sort key of `build_section_from_dir`:
`(0 if path.endswith("index.md") else 1, path)`. -/
def section_sort_key (d : DocEntry) : Nat × Nat × Nat × String :=
  (if pyEndsWith d.path "index.md" then 0 else 1, 0, 0, d.path)

/-- Sort key of the framework section: root `index.md`, then root files,
then subdirectory files grouped `spec`, `python`, `js`, others, `index.md`
first within each group, then by path. -/
def framework_sort_key (d : DocEntry) : Nat × Nat × Nat × String :=
  let p := d.path
  let isIndex := pyEndsWith p "index.md"
  let isRoot := !(pyContainsChar p '/')
  if isRoot && isIndex then (0, 0, 0, p)
  else if isRoot then (1, 0, 0, p)
  else
    let subdir := ((splitOnChar '/' p.toList).headD []).asString
    let subdir_order : Nat :=
      if subdir == "spec" then 0 else if subdir == "python" then 1
      else if subdir == "js" then 2 else 3
    (2, subdir_order, if isIndex then 0 else 1, p)

/-- The file system as the structure builders observe it: the `paths`
registry, directory listings, directory/file tests, and readable text-file
contents as line lists (`none` for an unreadable file). -/
structure DocsFS where
  pathsGet : String → Option String
  listdir : String → List String
  isdir : String → Bool
  isfile : String → Bool
  fileLines : String → Option (List String)

/-- `build_section_from_dir`. -/
def build_section_from_dir (fs : DocsFS) (base_dir : String) (section_path : Option String)
    (section_name : String) : Option Sect :=
  let scan_dir := match section_path with
    | some p => pyJoin base_dir p
    | none => base_dir
  if !fs.isdir scan_dir then none
  else
    let docs := (fs.listdir scan_dir).filterMap (fun f =>
      if pyEndsWith f ".md" then
        let filepath := pyJoin scan_dir f
        if fs.isfile filepath then
          let td := extract_title_and_description (fs.fileLines filepath) filepath
          let rel_path := match section_path with
            | some p => pyJoin p f
            | none => f
          some { path := rel_path, title := td.1, description := td.2 }
        else none
      else none)
    if docs.isEmpty then none
    else some { name := section_name, docs := sortByKey section_sort_key docs }

/-- `get_docs_structure.build_framework_section`. -/
def build_framework_section (fs : DocsFS) (framework_dir_key : Option String) : Option Sect :=
  match framework_dir_key with
  | none => none
  | some key =>
    match fs.pathsGet key with
    | none => none
    | some frame_dir =>
      if frame_dir == "" || !fs.isdir frame_dir then none
      else
        let rootDocs := (fs.listdir frame_dir).filterMap (fun f =>
          if pyEndsWith f ".md" then
            let filepath := pyJoin frame_dir f
            if fs.isfile filepath then
              let td := extract_title_and_description (fs.fileLines filepath) filepath
              some { path := f, title := td.1, description := td.2, framework := true }
            else none
          else none)
        let subDocs := (fs.listdir frame_dir).flatMap (fun subdir =>
          let subdir_path := pyJoin frame_dir subdir
          if fs.isdir subdir_path && !pyStartsWith subdir "." then
            (fs.listdir subdir_path).filterMap (fun f =>
              if pyEndsWith f ".md" then
                let filepath := pyJoin subdir_path f
                if fs.isfile filepath then
                  let td := extract_title_and_description (fs.fileLines filepath) filepath
                  some { path := subdir ++ "/" ++ f, title := td.1, description := td.2,
                         framework := true }
                else none
              else none)
          else [])
        let docs := rootDocs ++ subDocs
        if docs.isEmpty then none
        else some { name := "AIDE Frame", docs := sortByKey framework_sort_key docs,
                    framework := true }

/-! ## docs_viewer auto-discovery -/

/-- The `known_order` dict of `auto_discover_sections`. -/
def known_order (p : Option String) : Option (Nat × Nat) :=
  match p with
  | none => some (0, 0)
  | some "requirements" => some (1, 0)
  | some "platform" => some (2, 0)
  | some "implementation" => some (3, 0)
  | some "deployment" => some (4, 0)
  | some "development" => some (5, 0)
  | some _ => none

/-- `auto_discover_sections.sort_key`, encoded as a 4-tuple
order-isomorphically to the source's mixed-width tuples. -/
def discover_sort_key (entry : Option String × String) : Nat × Nat × Nat × String :=
  match known_order entry.1 with
  | some (a, b) => (a, b, 0, "")
  | none =>
    match entry.1 with
    | some path =>
      if pyContainsChar path '/' then
        match known_order (some ((splitOnChar '/' path.toList).headD []).asString) with
        | some (a, b) => (a, b + 1, 0, "")
        | none => (99, 0, 0, path)
      else (99, 0, 0, path)
    | none => (99, 0, 0, "")

/-- `auto_discover_sections.scan_dir`; the fuel argument is
`max_depth - depth + 1`, so fuel `0` is the `depth > max_depth` guard. -/
def scan_dir (fs : DocsFS) (base_dir : String) (excl : List String) :
    Nat → String → List (Option String × String)
  | 0, _ => []
  | fuel + 1, rel_path =>
    let full_path := if rel_path == "" then base_dir else pyJoin base_dir rel_path
    if !fs.isdir full_path then []
    else
      (fs.listdir full_path).flatMap (fun item =>
        if pyStartsWith item "." then []
        else if excl.contains item then []
        else
          let item_rel_path := if rel_path == "" then item else pyJoin rel_path item
          let item_full_path := pyJoin full_path item
          if !fs.isdir item_full_path then []
          else
            let has_md := (fs.listdir item_full_path).any (fun f =>
              pyEndsWith f ".md" && fs.isfile (pyJoin item_full_path f))
            (if has_md then
              [(some item_rel_path, pyTitle (pyReplace (pyReplace item "-" " ") "_" " "))]
             else [])
            ++ scan_dir fs base_dir excl fuel item_rel_path)

/-- The `discovered` list of `auto_discover_sections` before sorting:
the optional root entry followed by the scan results in discovery order. -/
def discovered_list (fs : DocsFS) (base_dir : String) (include_root : Bool) (max_depth : Nat)
    (excl : List String) : List (Option String × String) :=
  (if include_root && (fs.listdir base_dir).any (fun f =>
      pyEndsWith f ".md" && fs.isfile (pyJoin base_dir f)) then
    [(none, "Overview")]
   else []) ++ scan_dir fs base_dir excl max_depth ""

/-- `auto_discover_sections`. -/
def auto_discover_sections (fs : DocsFS) (dir_key : String) (include_root : Bool)
    (max_depth : Nat) (excl : List String) : List (Option String × String) :=
  match fs.pathsGet dir_key with
  | none => if include_root then [(none, "Overview")] else []
  | some base_dir =>
    if base_dir == "" || !fs.isdir base_dir then
      if include_root then [(none, "Overview")] else []
    else
      sortByKey discover_sort_key (discovered_list fs base_dir include_root max_depth excl)

/-! ## docs_viewer.get_docs_structure -/

def late_sections : List String := ["deployment", "development"]

def isLateDef (p : Option String) : Bool :=
  match p with
  | some s => late_sections.contains s
  | none => false

/-- One step of the `get_docs_structure` section loop: state is the output
list so far and the `aide_frame_inserted` flag. -/
def gds_step (fs : DocsFS) (base_dir : String) (frame_section : Option Sect)
    (st : List Sect × Bool) (sd : Option String × String) : List Sect × Bool :=
  if sd.1 == some "AIDE_FRAME" then st
  else
    let st1 := if isLateDef sd.1 && frame_section.isSome && !st.2 then
        (st.1 ++ frame_section.toList, true)
      else st
    match build_section_from_dir fs base_dir sd.1 sd.2 with
    | some s => (st1.1 ++ [s], st1.2)
    | none => st1

/-- The section definitions `get_docs_structure` iterates over: the ones
supplied, otherwise the auto-discovered ones (or the bare root). -/
def used_section_defs (fs : DocsFS) (docs_dir_key : String)
    (section_defs? : Option (List (Option String × String))) (auto_discover : Bool)
    (excl : List String) : List (Option String × String) :=
  match section_defs? with
  | some d => d
  | none =>
    if auto_discover then auto_discover_sections fs docs_dir_key true 2 excl
    else [(none, "Overview")]

/-- `get_docs_structure` (returning the `"sections"` list). -/
def get_docs_structure (fs : DocsFS) (docs_dir_key : String) (framework_dir_key : Option String)
    (section_defs? : Option (List (Option String × String))) (auto_discover : Bool)
    (excl : List String) : List Sect :=
  let base? := fs.pathsGet docs_dir_key
  let section_defs := used_section_defs fs docs_dir_key section_defs? auto_discover excl
  let frame_section := build_framework_section fs framework_dir_key
  match base? with
  | none => frame_section.toList
  | some base_dir =>
    if base_dir == "" || !fs.isdir base_dir then frame_section.toList
    else
      let res := section_defs.foldl (gds_step fs base_dir frame_section) ([], false)
      if frame_section.isSome && !res.2 then res.1 ++ frame_section.toList else res.1

/-- The sections built from a list of definitions without any framework
insertion: markers skipped, empty sections dropped. -/
def buildDefs (fs : DocsFS) (base_dir : String) (defs : List (Option String × String)) :
    List Sect :=
  defs.filterMap (fun sd =>
    if sd.1 == some "AIDE_FRAME" then none else build_section_from_dir fs base_dir sd.1 sd.2)

/-- Split a definition list at the first `deployment`/`development`
definition, if any. -/
def splitAtFirstLate :
    List (Option String × String) →
      Option (List (Option String × String) × (Option String × String) ×
        List (Option String × String))
  | [] => none
  | sd :: rest =>
    if isLateDef sd.1 then some ([], sd, rest)
    else
      match splitAtFirstLate rest with
      | some (pre, d, post) => some (sd :: pre, d, post)
      | none => none

/-! ## docs_viewer.load_file -/

/-- Outcome of `open(path).read()` in the load environment. -/
inductive ReadRes where
  | content (s : String)
  | fileNotFound
  | isADirectory
  | permissionDenied
  | decodeError
deriving DecidableEq

/-- Environment of `load_file`: the `paths` registry, `os.path.realpath`,
and the outcome of opening and reading each path. -/
structure LoadEnv where
  pathsGet : String → Option String
  realpath : String → String
  readFile : String → ReadRes

/-- `load_file`; `Except.error` is an exception propagating out of the
function (only `FileNotFoundError` is caught by the source). -/
def load_file (env : LoadEnv) (dir_key filename : String) : Except ReadRes (Option String) :=
  match env.pathsGet dir_key with
  | none => .ok none
  | some base_dir =>
    if base_dir == "" then .ok none
    else if hasDotDot filename then .ok none
    else
      let filepath := pyJoin base_dir filename
      let real_path := env.realpath filepath
      let real_base := env.realpath base_dir
      if !pyStartsWith real_path (real_base ++ "/") && real_path != real_base then .ok none
      else
        match env.readFile filepath with
        | .content s => .ok (some s)
        | .fileNotFound => .ok none
        | e => .error e

/-! ## Claim-level classification of discovered sections (claim C4) -/

/-- The canonical rank of a known section (root/Overview is rank 0). -/
def knownRank (e : Option String × String) : Option Nat :=
  (known_order e.1).map (fun x => x.1)

/-- The rank of the known parent of a nested section whose first path
component is a known name (and which is not itself known). -/
def childRank (e : Option String × String) : Option Nat :=
  match e.1 with
  | none => none
  | some p =>
    if (known_order (some p)).isSome then none
    else if pyContainsChar p '/' then
      (known_order (some ((splitOnChar '/' p.toList).headD []).asString)).map (fun x => x.1)
    else none

/-- A discovered section that is neither known nor nested under a known
parent. -/
def isOtherEntry (e : Option String × String) : Bool :=
  (knownRank e).isNone && (childRank e).isNone

def entryPathStr (e : Option String × String) : String := e.1.getD ""

/-- The ordering relation claimed for the output of
`auto_discover_sections` (claim C4), read pairwise left to right: known
sections appear in canonical rank order; once an entry is neither known
nor a child of a known parent, so is everything after it, and such other
entries are mutually ordered by path string; a child of a known parent
precedes every strictly later known section; and a known section precedes
every child entry whose parent rank is at least its own. -/
def discoverRel (a b : Option String × String) : Prop :=
  (∀ ra rb, knownRank a = some ra → knownRank b = some rb → ra ≤ rb) ∧
  (isOtherEntry a = true → isOtherEntry b = true) ∧
  (isOtherEntry a = true → strLe (entryPathStr a) (entryPathStr b) = true) ∧
  (∀ ra rb, childRank a = some ra → knownRank b = some rb → ra < rb) ∧
  (∀ ra rb, knownRank a = some ra → childRank b = some rb → ra ≤ rb)

/-! ## Concrete environments for witnesses and counterexamples -/

/-- Environment for exercising `load_file` path rejection: the joined path
resolves outside the base directory and a file exists everywhere. -/
def c1Env : LoadEnv where
  pathsGet := fun k => if k == "DOCS_DIR" then some "/d" else none
  realpath := fun s => if s == "/d" then "/d" else "/outside"
  readFile := fun _ => .content "secret"

/-- Environment for exercising `load_file` on a path that designates a
directory: reading it raises `IsADirectoryError`. -/
def c9Env : LoadEnv where
  pathsGet := fun k => if k == "K" then some "/d" else none
  realpath := fun s => s
  readFile := fun p => if p == "/d/sub" then .isADirectory else .fileNotFound

/-- A framework docs directory holding a root non-index file and a
subdirectory `index.md`, with no main docs directory. -/
def c3FS : DocsFS where
  pathsGet := fun k => if k == "FRAME" then some "/frame" else none
  listdir := fun p =>
    if p == "/frame" then ["aaa.md", "python"]
    else if p == "/frame/python" then ["index.md"] else []
  isdir := fun p => p == "/frame" || p == "/frame/python"
  isfile := fun p => p == "/frame/aaa.md" || p == "/frame/python/index.md"
  fileLines := fun _ => none

/-- The docs tree of the spec's ordering example: root file plus
`requirements`, `platform` and `zzz-custom` directories, each containing
`index.md`. -/
def c4FS : DocsFS where
  pathsGet := fun k => if k == "DOCS_DIR" then some "docs" else none
  listdir := fun p =>
    if p == "docs" then ["readme.md", "requirements", "platform", "zzz-custom"]
    else if p == "docs/requirements" then ["index.md"]
    else if p == "docs/platform" then ["index.md"]
    else if p == "docs/zzz-custom" then ["index.md"] else []
  isdir := fun p =>
    p == "docs" || p == "docs/requirements" || p == "docs/platform" || p == "docs/zzz-custom"
  isfile := fun p =>
    p == "docs/readme.md" || p == "docs/requirements/index.md" ||
      p == "docs/platform/index.md" || p == "docs/zzz-custom/index.md"
  fileLines := fun _ => none

/-- A docs directory with three root files and a framework directory with
one root file. -/
def c5FS : DocsFS where
  pathsGet := fun k =>
    if k == "DOCS" then some "docs" else if k == "FRAME" then some "frame" else none
  listdir := fun p =>
    if p == "docs" then ["intro.md", "index.md", "alpha.md"]
    else if p == "frame" then ["f.md"] else []
  isdir := fun p => p == "docs" || p == "frame"
  isfile := fun p =>
    p == "docs/intro.md" || p == "docs/index.md" || p == "docs/alpha.md" || p == "frame/f.md"
  fileLines := fun _ => none

/-- A PWA configuration with the required second icon text line. -/
def c7Cfg : PwaConfig := { icon := { line2_text := some "Py" } }

/-- An empty file-system state. -/
def emptyFS : FSState := { files := fun _ => none, dirs := fun _ => false }

/-! ## General lemmas -/

theorem splitTitle_eq_none (lines : List String)
    (h : ∀ l ∈ lines, pyStartsWith l "# " = false) : splitTitle lines = none := by
  induction lines with
  | nil => rfl
  | cons l rest ih =>
    unfold splitTitle
    rw [h l (List.mem_cons_self l rest)]
    exact ih (fun x hx => h x (List.mem_cons_of_mem l hx))

theorem findSentence_empty : findSentence "" = none := rfl

theorem descStep_snd (lines : List String) (acc : List String)
    (h : findSentence (sepJoin " " acc) = none) :
    (descStep lines acc).2 = findSentence (sepJoin " " (descStep lines acc).1) := by
  induction lines generalizing acc with
  | nil => simpa [descStep] using h.symm
  | cons line rest ih =>
    unfold descStep
    by_cases h1 : (pyStrip line == "") && acc.isEmpty
    · simpa [h1] using ih acc h
    · simp only [h1, Bool.false_eq_true, if_false]
      by_cases h2 : pyStartsWith (pyStrip line) "#" || pyStartsWith (pyStrip line) "```" ||
          pyStartsWith (pyStrip line) "---"
      · simpa [h2] using h.symm
      · simp only [h2, Bool.false_eq_true, if_false]
        by_cases h3 : pyStartsWith (pyStrip line) "|" || pyStartsWith (pyStrip line) "-" ||
            pyStartsWith (pyStrip line) "*"
        · simp only [h3, if_true]
          by_cases h4 : acc.isEmpty
          · simpa [h4] using ih acc h
          · simpa [h4] using h.symm
        · simp only [h3, Bool.false_eq_true, if_false]
          rcases hfs : findSentence (sepJoin " "
              (if pyStrip line == "" then acc else acc ++ [pyStrip line])) with _ | d
          · simpa [hfs] using ih _ hfs
          · simp only [beq_iff_eq] at hfs
            simp [hfs]

/-! ## Claim C1 -/

/-- C1: for a registered directory key, `load_file` returns `None` (never
file content) for any relative path containing the substring `..`, and
likewise for any path whose resolved real path is neither equal to nor
nested under (the resolved path of) the registered base directory. -/
theorem load_file_path_safety (env : LoadEnv) (dir_key filename base_dir : String)
    (hbase : env.pathsGet dir_key = some base_dir)
    (h : hasDotDot filename = true ∨
      (pyStartsWith (env.realpath (pyJoin base_dir filename))
          (env.realpath base_dir ++ "/") = false ∧
        env.realpath (pyJoin base_dir filename) ≠ env.realpath base_dir)) :
    load_file env dir_key filename = .ok none := by
  unfold load_file
  rw [hbase]
  by_cases hemp : base_dir == ""
  · simp [hemp]
  · rcases h with hdd | ⟨hsw, hne⟩
    · simp [hemp, hdd]
    · by_cases hdd2 : hasDotDot filename
      · simp [hemp, hdd2]
      · simp [hemp, hdd2, hsw, hne, bne_iff_ne]

theorem load_file_path_safety_witness :
    load_file c1Env "DOCS_DIR" "../x" = .ok none :=
  load_file_path_safety c1Env "DOCS_DIR" "../x" "/d" (by decide) (Or.inl (by decide))

/-! ## Claim C9 -/

/-- C9 counterexample: with a registered key and a relative path that
resolves inside the base directory but designates a directory, `load_file`
propagates `IsADirectoryError` instead of returning content or `None`. -/
theorem load_file_raises_cex :
    load_file c9Env "K" "sub" = .error .isADirectory ∧
      ∀ r : Option String, load_file c9Env "K" "sub" ≠ .ok r := by
  have he : load_file c9Env "K" "sub" = .error .isADirectory := rfl
  refine ⟨he, fun r hr => ?_⟩
  rw [he] at hr
  exact Except.noConfusion hr

/-- C9 amended: `load_file` either returns content or `None`, or it
propagates the exact error raised by opening the resolved path, and that
error is an `IsADirectoryError`, `PermissionError` or
`UnicodeDecodeError` (only `FileNotFoundError` is caught and turned into
`None`). -/
theorem load_file_error_propagation (env : LoadEnv) (dir_key filename : String) :
    (∃ r : Option String, load_file env dir_key filename = .ok r) ∨
    (∃ base_dir, env.pathsGet dir_key = some base_dir ∧
      load_file env dir_key filename = .error (env.readFile (pyJoin base_dir filename)) ∧
      (env.readFile (pyJoin base_dir filename) = .isADirectory ∨
        env.readFile (pyJoin base_dir filename) = .permissionDenied ∨
        env.readFile (pyJoin base_dir filename) = .decodeError)) := by
  unfold load_file
  cases hb : env.pathsGet dir_key with
  | none => exact Or.inl ⟨none, rfl⟩
  | some base_dir =>
    by_cases hemp : base_dir == ""
    · exact Or.inl ⟨none, by simp [hemp]⟩
    · by_cases hdd : hasDotDot filename
      · exact Or.inl ⟨none, by simp [hemp, hdd]⟩
      · by_cases hsec : (!pyStartsWith (env.realpath (pyJoin base_dir filename))
            (env.realpath base_dir ++ "/") &&
            env.realpath (pyJoin base_dir filename) != env.realpath base_dir) = true
        · exact Or.inl ⟨none, by simp only [hemp, hdd, hsec]; simp⟩
        · cases hr : env.readFile (pyJoin base_dir filename) with
          | content s => exact Or.inl ⟨some s, by simp [hemp, hdd, hsec, hr]⟩
          | fileNotFound => exact Or.inl ⟨none, by simp [hemp, hdd, hsec, hr]⟩
          | isADirectory =>
            exact Or.inr ⟨base_dir, rfl, by simp [hemp, hdd, hsec, hr], Or.inl hr⟩
          | permissionDenied =>
            exact Or.inr ⟨base_dir, rfl, by simp [hemp, hdd, hsec, hr], Or.inr (Or.inl hr)⟩
          | decodeError =>
            exact Or.inr ⟨base_dir, rfl, by simp [hemp, hdd, hsec, hr], Or.inr (Or.inr hr)⟩

/-! ## Claim C10 -/

/-- C10: when `pwa.icon.line2_text` is missing or falsy, `ensure_icons`
returns `False` and leaves the file system (files and directories)
untouched, even with `force=True`. -/
theorem ensure_icons_requires_line2 (app_dir : String) (pwa_config : PwaConfig) (force : Bool)
    (st : FSState) (h : pyTruthyOptStr pwa_config.icon.line2_text = false) :
    ensure_icons app_dir pwa_config force st = (false, st) := by
  unfold ensure_icons
  simp [h]

theorem ensure_icons_requires_line2_witness :
    ensure_icons "app" { icon := { line2_text := some "" } } true emptyFS = (false, emptyFS) :=
  ensure_icons_requires_line2 "app" { icon := { line2_text := some "" } } true emptyFS rfl

/-! ## Claim C2 -/

/-- C2 counterexample: for a file whose joined description text has its
first valid sentence terminator exactly at the 11th character (0-based
index 10), the code returns no description, while the claim's rule ("at or
after the 11th character") prescribes one. -/
theorem extract_description_eleventh_char_cex :
    (extract_title_and_description (some ["# T", "abcdefghij. more"]) "doc.md").2 = none ∧
      claimDescriptionRule
        (sepJoin " " (collected_desc_lines (some ["# T", "abcdefghij. more"]))) =
        some "abcdefghij." ∧
      (none : Option String) ≠ some "abcdefghij." :=
  ⟨by decide, by decide, by decide⟩

/-- C2 amended: the description returned by `extract_title_and_description`
is the prefix of the space-joined collected lines ending at the first
sentence terminator (`.`, `!`, `?`) at 0-based index strictly greater
than 10 (at or after the 12th character) that is at the end of the text or
followed by a space or newline; if there is no such terminator in the
joined collected text, the description is `None`. -/
theorem extract_description_first_sentence (lines? : Option (List String)) (filepath : String) :
    (extract_title_and_description lines? filepath).2 =
      findSentence (sepJoin " " (collected_desc_lines lines?)) := by
  cases lines? with
  | none => simp [extract_title_and_description, collected_desc_lines, sepJoin, findSentence_empty]
  | some lines =>
    cases hs : splitTitle lines with
    | none =>
      simp [extract_title_and_description, collected_desc_lines, hs, sepJoin, findSentence_empty]
    | some tr =>
      have key := descStep_snd tr.2 [] (by simpa using findSentence_empty)
      simp only [extract_title_and_description, collected_desc_lines, hs]
      by_cases ht : tr.1 == "" <;> simpa [ht] using key

/-! ## Claim C6 -/

/-- C6 counterexample: for the markdown file name `a.md.md` with no H1,
the code's fallback removes every occurrence of `.md` (title `A`), while
the claim's extension-stripping rule prescribes title `A.Md`. -/
theorem fallback_title_extension_cex :
    (extract_title_and_description (some ["hello"]) "a.md.md").1 = "A" ∧
      claimFallbackTitle "a.md.md" = "A.Md" ∧ ("A" : String) ≠ "A.Md" :=
  ⟨by decide, by decide, by decide⟩

/-- C6 amended: for every markdown file containing no H1 heading, and for
every unreadable file, `extract_title_and_description` returns the file's
base name with every occurrence of the substring `.md` removed, `-` and
`_` replaced by spaces and title-cased, and no description. -/
theorem extract_no_h1_fallback (lines : List String) (filepath : String)
    (h : ∀ l ∈ lines, pyStartsWith l "# " = false) :
    extract_title_and_description (some lines) filepath = (fallback_title filepath, none) ∧
      extract_title_and_description none filepath = (fallback_title filepath, none) := by
  refine ⟨?_, rfl⟩
  simp [extract_title_and_description, splitTitle_eq_none lines h]

theorem extract_no_h1_fallback_witness :
    extract_title_and_description (some ["hello world"]) "my-file.md" =
        (fallback_title "my-file.md", none) ∧
      extract_title_and_description none "my-file.md" = (fallback_title "my-file.md", none) :=
  extract_no_h1_fallback ["hello world"] "my-file.md" (by decide)

/-! ## Hash format lemmas and claim C8 -/

theorem length_flatMap_byteHexChars (l : List Nat) :
    (l.flatMap byteHexChars).length = 2 * l.length := by
  induction l with
  | nil => rfl
  | cons b bs ih =>
    simp only [List.flatMap_cons, List.length_append, ih, byteHexChars]
    simp
    omega

theorem md5DigestBytes_length (msg : List Nat) : (md5DigestBytes msg).length = 16 := by
  simp [md5DigestBytes, wordLEBytes]

theorem wordLEBytes_lt (w : Nat) : ∀ b ∈ wordLEBytes w, b < 256 := by
  intro b hb
  simp only [wordLEBytes, List.mem_cons, List.not_mem_nil, or_false] at hb
  rcases hb with h | h | h | h <;> subst h <;> exact Nat.mod_lt _ (by decide)

theorem md5DigestBytes_lt (msg : List Nat) : ∀ b ∈ md5DigestBytes msg, b < 256 := by
  intro b hb
  simp only [md5DigestBytes, List.mem_append] at hb
  rcases hb with ((h | h) | h) | h <;> exact wordLEBytes_lt _ b h

theorem hexDigitChar_mem (n : Nat) (h : n < 16) : hexDigitChar n ∈ "0123456789abcdef".toList := by
  have hall : ∀ m < 16, hexDigitChar m ∈ "0123456789abcdef".toList := by decide
  exact hall n h

theorem md5HexChars_hex (msg : List Nat) :
    ∀ c ∈ md5HexChars msg, c ∈ "0123456789abcdef".toList := by
  intro c hc
  rw [md5HexChars] at hc
  obtain ⟨b, hb, hcb⟩ := List.mem_flatMap.mp hc
  have hblt : b < 256 := md5DigestBytes_lt msg b hb
  simp only [byteHexChars, List.mem_cons, List.not_mem_nil, or_false] at hcb
  rcases hcb with h | h <;> subst h
  · exact hexDigitChar_mem _ (by omega)
  · exact hexDigitChar_mem _ (Nat.mod_lt _ (by decide))

theorem md5HexChars_length (msg : List Nat) : (md5HexChars msg).length = 32 := by
  rw [md5HexChars, length_flatMap_byteHexChars, md5DigestBytes_length]

/-- C8: `_compute_icon_hash` is deterministic — any two evaluations on
equal configurations and theme colours (defaults substituted inside the
definition) yield the same result — and the result is always a 12-character
string of lowercase hexadecimal digits. -/
theorem compute_icon_hash_deterministic (cfg₁ cfg₂ : IconConfig) (t₁ t₂ : String)
    (hc : cfg₁ = cfg₂) (ht : t₁ = t₂) :
    compute_icon_hash cfg₁ t₁ = compute_icon_hash cfg₂ t₂ ∧
      (compute_icon_hash cfg₁ t₁).length = 12 ∧
      ∀ c ∈ (compute_icon_hash cfg₁ t₁).toList, c ∈ "0123456789abcdef".toList := by
  subst hc
  subst ht
  refine ⟨rfl, ?_, ?_⟩
  · rw [compute_icon_hash, List.length_asString, List.length_take, md5HexChars_length]
    omega
  · intro c hc
    rw [compute_icon_hash, List.toList_asString] at hc
    exact md5HexChars_hex _ c (List.mem_of_mem_take hc)

theorem compute_icon_hash_deterministic_witness :
    compute_icon_hash { line2_text := some "Py" } "#2563eb" =
        compute_icon_hash { line2_text := some "Py" } "#2563eb" ∧
      (compute_icon_hash { line2_text := some "Py" } "#2563eb").length = 12 ∧
      ∀ c ∈ (compute_icon_hash { line2_text := some "Py" } "#2563eb").toList,
        c ∈ "0123456789abcdef".toList :=
  compute_icon_hash_deterministic _ _ _ _ rfl rfl

/-! ## SVG decomposition lemmas and claim C7 -/

theorem isPrefixOf_append_self (l t : List Char) : l.isPrefixOf (l ++ t) = true := by
  induction l with
  | nil => simp [List.isPrefixOf]
  | cons c cs ih => simp [List.isPrefixOf, ih]

theorem takeWhile_append_stop (p : Char → Bool) (l : List Char) (c : Char) (t : List Char)
    (hall : ∀ x ∈ l, p x = true) (hc : p c = false) :
    (l ++ c :: t).takeWhile p = l := by
  induction l with
  | nil => simp [List.takeWhile, hc]
  | cons a as ih =>
    have ha : p a = true := hall a (List.mem_cons_self a as)
    simp [List.takeWhile_cons, ha, ih (fun x hx => hall x (List.mem_cons_of_mem a hx))]

theorem sepJoin_foldl_decomp (sep : String) (as : List String) :
    ∀ acc : String, ∃ r : String, as.foldl (fun x s => x ++ sep ++ s) acc = acc ++ r := by
  induction as with
  | nil => exact fun acc => ⟨"", by simp⟩
  | cons b bs ih =>
    intro acc
    obtain ⟨r, hr⟩ := ih (acc ++ sep ++ b)
    refine ⟨sep ++ b ++ r, ?_⟩
    rw [List.foldl_cons, hr]
    simp [String.append_assoc]

theorem sepJoin_marker_head (m hs e b : String) (t : List String) :
    ∃ w : String, sepJoin "\n" ((m ++ hs ++ e) :: b :: t) = (m ++ hs) ++ (e ++ w) := by
  obtain ⟨r, hr⟩ := sepJoin_foldl_decomp "\n" t ((m ++ hs ++ e) ++ "\n" ++ b)
  refine ⟨"\n" ++ (b ++ r), ?_⟩
  simp only [sepJoin, List.foldl_cons]
  rw [hr]
  simp [String.append_assoc]

theorem generate_svg_decomp (size : Nat) (cfg : IconConfig) (theme hs : String) :
    ∃ w : String, generate_svg size cfg theme hs =
      ("<!-- aide-icon-hash: " ++ hs) ++ (" -->" ++ w) := by
  simp only [generate_svg, List.cons_append, List.nil_append]
  exact sepJoin_marker_head "<!-- aide-icon-hash: " hs " -->" _ _

theorem searchIconHash_of_hashAt (l : List Char) (h : String) (hl : l ≠ [])
    (hh : hashAt l = some h) : searchIconHash l = some h := by
  cases l with
  | nil => exact absurd rfl hl
  | cons c cs =>
    rw [searchIconHash, hh]

theorem searchIconHash_marker (hs w : String)
    (hne : hs.toList ≠ []) (hhex : ∀ c ∈ hs.toList, isHexLowerChar c = true) :
    searchIconHash (("<!-- aide-icon-hash: " ++ hs) ++ (" -->" ++ w)).toList = some hs := by
  have hdata : (("<!-- aide-icon-hash: " ++ hs) ++ (" -->" ++ w)).toList =
      "<!-- aide-icon-hash: ".toList ++ (hs.toList ++ (" -->".toList ++ w.toList)) := by
    simp [String.toList, String.data_append]
  have hsp : " -->".toList ++ w.toList = ' ' :: ("-->".toList ++ w.toList) := by
    rw [show " -->".toList = ' ' :: "-->".toList from rfl]
    rfl
  have hAt : hashAt ("<!-- aide-icon-hash: ".toList ++
      (hs.toList ++ (" -->".toList ++ w.toList))) = some hs := by
    rw [hashAt]
    simp only [isPrefixOf_append_self, if_true]
    rw [List.drop_left]
    rw [hsp]
    rw [takeWhile_append_stop isHexLowerChar hs.toList ' ' ("-->".toList ++ w.toList) hhex
      (by decide)]
    rw [← hsp, List.drop_left]
    simp only [isPrefixOf_append_self, Bool.and_true]
    rw [if_pos]
    · rw [String.asString_toList]
    · simpa [List.isEmpty_eq_true] using hne
  rw [hdata]
  refine searchIconHash_of_hashAt _ _ ?_ hAt
  intro hcontra
  have := (List.append_eq_nil.mp hcontra).1
  exact absurd this (by decide)

theorem str_append_right_cancel {s a b : String} (h : s ++ a = s ++ b) : a = b := by
  have hd := congrArg String.data h
  simp only [String.data_append] at hd
  exact String.ext (List.append_cancel_left hd)

theorem pyJoin_right_ne (d a b : String) (ha : pyStartsWith a "/" = false)
    (hb : pyStartsWith b "/" = false) (hab : a ≠ b) : pyJoin d a ≠ pyJoin d b := by
  unfold pyJoin
  rw [ha, hb]
  simp only [Bool.false_eq_true, if_false]
  by_cases hd : d == ""
  · simpa [hd] using hab
  · simp only [hd, Bool.false_eq_true, if_false]
    by_cases he : pyEndsWith d "/"
    · simp only [he, if_true]
      exact fun hcontra => hab (str_append_right_cancel hcontra)
    · simp only [he, Bool.false_eq_true, if_false]
      exact fun hcontra => hab (str_append_right_cancel hcontra)

theorem compute_icon_hash_toList_ne (cfg : IconConfig) (t : String) :
    (compute_icon_hash cfg t).toList ≠ [] := by
  rw [compute_icon_hash, List.toList_asString]
  intro hcontra
  have := congrArg List.length hcontra
  rw [List.length_take, md5HexChars_length] at this
  simp at this

theorem compute_icon_hash_hexlower (cfg : IconConfig) (t : String) :
    ∀ c ∈ (compute_icon_hash cfg t).toList, isHexLowerChar c = true := by
  intro c hc
  rw [compute_icon_hash, List.toList_asString] at hc
  have hmem := md5HexChars_hex _ c (List.mem_of_mem_take hc)
  have hall : ∀ x ∈ "0123456789abcdef".toList, isHexLowerChar x = true := by decide
  exact hall c hmem

theorem ensure_icons_writes (app_dir : String) (p : PwaConfig) (st : FSState)
    (hl2 : pyTruthyOptStr p.icon.line2_text = true)
    (hchk : (extract_hash_from_svg st.files
          (pyJoin (pyJoin (pyJoin app_dir "static") "icons") "icon-192.svg") ==
            some (compute_icon_hash p.icon (p.theme_color.getD "#2563eb")) &&
        extract_hash_from_svg st.files
          (pyJoin (pyJoin (pyJoin app_dir "static") "icons") "icon-512.svg") ==
            some (compute_icon_hash p.icon (p.theme_color.getD "#2563eb"))) = false) :
    ensure_icons app_dir p false st =
      (true,
       { files := setFile (setFile st.files
            (pyJoin (pyJoin (pyJoin app_dir "static") "icons") "icon-192.svg")
            (generate_svg 192 p.icon (p.theme_color.getD "#2563eb")
              (compute_icon_hash p.icon (p.theme_color.getD "#2563eb"))))
            (pyJoin (pyJoin (pyJoin app_dir "static") "icons") "icon-512.svg")
            (generate_svg 512 p.icon (p.theme_color.getD "#2563eb")
              (compute_icon_hash p.icon (p.theme_color.getD "#2563eb"))),
         dirs := mkdirsAll st.dirs (pyJoin (pyJoin app_dir "static") "icons") }) := by
  unfold ensure_icons
  simp [hl2, hchk]

theorem ensure_icons_skip (app_dir : String) (p : PwaConfig) (st : FSState)
    (hl2 : pyTruthyOptStr p.icon.line2_text = true)
    (h192 : extract_hash_from_svg st.files
        (pyJoin (pyJoin (pyJoin app_dir "static") "icons") "icon-192.svg") =
          some (compute_icon_hash p.icon (p.theme_color.getD "#2563eb")))
    (h512 : extract_hash_from_svg st.files
        (pyJoin (pyJoin (pyJoin app_dir "static") "icons") "icon-512.svg") =
          some (compute_icon_hash p.icon (p.theme_color.getD "#2563eb"))) :
    ensure_icons app_dir p false st = (false, st) := by
  unfold ensure_icons
  simp [hl2, h192, h512]

/-- C7: if `ensure_icons` with `force=False` returns `True` (icons
written), an immediately following call with the same arguments returns
`False` and leaves the file system unchanged. -/
theorem ensure_icons_idempotent (app_dir : String) (p : PwaConfig) (st : FSState)
    (h : (ensure_icons app_dir p false st).1 = true) :
    (ensure_icons app_dir p false (ensure_icons app_dir p false st).2).1 = false ∧
      (ensure_icons app_dir p false (ensure_icons app_dir p false st).2).2 =
        (ensure_icons app_dir p false st).2 := by
  by_cases hl2 : pyTruthyOptStr p.icon.line2_text
  · by_cases hchk : (extract_hash_from_svg st.files
          (pyJoin (pyJoin (pyJoin app_dir "static") "icons") "icon-192.svg") ==
            some (compute_icon_hash p.icon (p.theme_color.getD "#2563eb")) &&
        extract_hash_from_svg st.files
          (pyJoin (pyJoin (pyJoin app_dir "static") "icons") "icon-512.svg") ==
            some (compute_icon_hash p.icon (p.theme_color.getD "#2563eb")))
    · exfalso
      unfold ensure_icons at h
      simp [hl2, hchk] at h
    · rw [Bool.not_eq_true] at hchk
      have hfirst := ensure_icons_writes app_dir p st hl2 hchk
      rw [hfirst]
      have hpne : pyJoin (pyJoin (pyJoin app_dir "static") "icons") "icon-192.svg" ≠
          pyJoin (pyJoin (pyJoin app_dir "static") "icons") "icon-512.svg" :=
        pyJoin_right_ne _ "icon-192.svg" "icon-512.svg" (by decide) (by decide) (by decide)
      have hf192 : (setFile (setFile st.files
            (pyJoin (pyJoin (pyJoin app_dir "static") "icons") "icon-192.svg")
            (generate_svg 192 p.icon (p.theme_color.getD "#2563eb")
              (compute_icon_hash p.icon (p.theme_color.getD "#2563eb"))))
            (pyJoin (pyJoin (pyJoin app_dir "static") "icons") "icon-512.svg")
            (generate_svg 512 p.icon (p.theme_color.getD "#2563eb")
              (compute_icon_hash p.icon (p.theme_color.getD "#2563eb"))))
          (pyJoin (pyJoin (pyJoin app_dir "static") "icons") "icon-192.svg") =
          some (generate_svg 192 p.icon (p.theme_color.getD "#2563eb")
            (compute_icon_hash p.icon (p.theme_color.getD "#2563eb"))) := by
        simp [setFile, beq_eq_false_iff_ne.mpr hpne]
      have hf512 : (setFile (setFile st.files
            (pyJoin (pyJoin (pyJoin app_dir "static") "icons") "icon-192.svg")
            (generate_svg 192 p.icon (p.theme_color.getD "#2563eb")
              (compute_icon_hash p.icon (p.theme_color.getD "#2563eb"))))
            (pyJoin (pyJoin (pyJoin app_dir "static") "icons") "icon-512.svg")
            (generate_svg 512 p.icon (p.theme_color.getD "#2563eb")
              (compute_icon_hash p.icon (p.theme_color.getD "#2563eb"))))
          (pyJoin (pyJoin (pyJoin app_dir "static") "icons") "icon-512.svg") =
          some (generate_svg 512 p.icon (p.theme_color.getD "#2563eb")
            (compute_icon_hash p.icon (p.theme_color.getD "#2563eb"))) := by
        simp [setFile]
      obtain ⟨w1, hw1⟩ := generate_svg_decomp 192 p.icon (p.theme_color.getD "#2563eb")
        (compute_icon_hash p.icon (p.theme_color.getD "#2563eb"))
      obtain ⟨w2, hw2⟩ := generate_svg_decomp 512 p.icon (p.theme_color.getD "#2563eb")
        (compute_icon_hash p.icon (p.theme_color.getD "#2563eb"))
      have hx192 : extract_hash_from_svg (setFile (setFile st.files
            (pyJoin (pyJoin (pyJoin app_dir "static") "icons") "icon-192.svg")
            (generate_svg 192 p.icon (p.theme_color.getD "#2563eb")
              (compute_icon_hash p.icon (p.theme_color.getD "#2563eb"))))
            (pyJoin (pyJoin (pyJoin app_dir "static") "icons") "icon-512.svg")
            (generate_svg 512 p.icon (p.theme_color.getD "#2563eb")
              (compute_icon_hash p.icon (p.theme_color.getD "#2563eb"))))
          (pyJoin (pyJoin (pyJoin app_dir "static") "icons") "icon-192.svg") =
          some (compute_icon_hash p.icon (p.theme_color.getD "#2563eb")) := by
        rw [extract_hash_from_svg, hf192, hw1]
        exact searchIconHash_marker _ w1 (compute_icon_hash_toList_ne _ _)
          (compute_icon_hash_hexlower _ _)
      have hx512 : extract_hash_from_svg (setFile (setFile st.files
            (pyJoin (pyJoin (pyJoin app_dir "static") "icons") "icon-192.svg")
            (generate_svg 192 p.icon (p.theme_color.getD "#2563eb")
              (compute_icon_hash p.icon (p.theme_color.getD "#2563eb"))))
            (pyJoin (pyJoin (pyJoin app_dir "static") "icons") "icon-512.svg")
            (generate_svg 512 p.icon (p.theme_color.getD "#2563eb")
              (compute_icon_hash p.icon (p.theme_color.getD "#2563eb"))))
          (pyJoin (pyJoin (pyJoin app_dir "static") "icons") "icon-512.svg") =
          some (compute_icon_hash p.icon (p.theme_color.getD "#2563eb")) := by
        rw [extract_hash_from_svg, hf512, hw2]
        exact searchIconHash_marker _ w2 (compute_icon_hash_toList_ne _ _)
          (compute_icon_hash_hexlower _ _)
      have hsecond := ensure_icons_skip app_dir p
        { files := setFile (setFile st.files
              (pyJoin (pyJoin (pyJoin app_dir "static") "icons") "icon-192.svg")
              (generate_svg 192 p.icon (p.theme_color.getD "#2563eb")
                (compute_icon_hash p.icon (p.theme_color.getD "#2563eb"))))
              (pyJoin (pyJoin (pyJoin app_dir "static") "icons") "icon-512.svg")
              (generate_svg 512 p.icon (p.theme_color.getD "#2563eb")
                (compute_icon_hash p.icon (p.theme_color.getD "#2563eb"))),
          dirs := mkdirsAll st.dirs (pyJoin (pyJoin app_dir "static") "icons") }
        hl2 hx192 hx512
      rw [hsecond]
      exact ⟨rfl, rfl⟩
  · exfalso
    rw [Bool.not_eq_true] at hl2
    unfold ensure_icons at h
    simp [hl2] at h

theorem ensure_icons_idempotent_witness :
    (ensure_icons "app" c7Cfg false (ensure_icons "app" c7Cfg false emptyFS).2).1 = false ∧
      (ensure_icons "app" c7Cfg false (ensure_icons "app" c7Cfg false emptyFS).2).2 =
        (ensure_icons "app" c7Cfg false emptyFS).2 :=
  ensure_icons_idempotent "app" c7Cfg emptyFS (by decide)

/-! ## Order lemmas for the sort keys -/

theorem charListLe_trans : ∀ a b c : List Char,
    charListLe a b = true → charListLe b c = true → charListLe a c = true := by
  intro a
  induction a with
  | nil => intro b c _ _; rfl
  | cons x xs ih =>
    intro b c h1 h2
    cases b with
    | nil => simp [charListLe] at h1
    | cons y ys =>
      cases c with
      | nil => simp [charListLe] at h2
      | cons z zs =>
        simp only [charListLe] at h1 h2 ⊢
        by_cases hxy : x == y
        · have hxy' : x = y := eq_of_beq hxy
          subst hxy'
          by_cases hyz : x == z
          · have hyz' : x = z := eq_of_beq hyz
            subst hyz'
            simp only [beq_self_eq_true, if_true] at h1 h2 ⊢
            exact ih ys zs (by simpa [hxy] using h1) (by simpa [hyz] using h2)
          · rw [if_pos (beq_self_eq_true x)] at h1
            rw [if_neg (by simpa using hyz)] at h2
            rw [if_neg (by simpa using hyz)]
            exact h2
        · have hxy' : x ≠ y := fun h => (by simp [h] at hxy)
          rw [if_neg (by simpa using hxy')] at h1
          have hlt1 : x < y := of_decide_eq_true h1
          by_cases hyz : y == z
          · have hyz' : y = z := eq_of_beq hyz
            subst hyz'
            rw [if_neg (by simpa using hxy')]
            exact decide_eq_true hlt1
          · have hyz' : y ≠ z := fun h => (by simp [h] at hyz)
            rw [if_neg (by simpa using hyz')] at h2
            have hlt2 : y < z := of_decide_eq_true h2
            have hltz : x < z := lt_trans hlt1 hlt2
            rw [if_neg (by simpa using ne_of_lt hltz)]
            exact decide_eq_true hltz

theorem charListLe_total : ∀ a b : List Char, charListLe a b = true ∨ charListLe b a = true := by
  intro a
  induction a with
  | nil => intro b; exact Or.inl rfl
  | cons x xs ih =>
    intro b
    cases b with
    | nil => exact Or.inr rfl
    | cons y ys =>
      simp only [charListLe]
      by_cases hxy : x == y
      · have hxy' : x = y := eq_of_beq hxy
        subst hxy'
        simp only [beq_self_eq_true, if_true]
        exact ih ys
      · have hxy' : x ≠ y := fun h => (by simp [h] at hxy)
        rcases lt_or_gt_of_ne hxy' with hlt | hgt
        · exact Or.inl (by rw [if_neg (by simpa using hxy')]; exact decide_eq_true hlt)
        · refine Or.inr ?_
          rw [if_neg (by simpa using hxy'.symm)]
          exact decide_eq_true hgt

theorem charListLe_refl (a : List Char) : charListLe a a = true := by
  induction a with
  | nil => rfl
  | cons x xs ih => simp [charListLe, ih]

theorem strLe_trans {a b c : String} (h1 : strLe a b = true) (h2 : strLe b c = true) :
    strLe a c = true :=
  charListLe_trans _ _ _ h1 h2

theorem strLe_total (a b : String) : strLe a b = true ∨ strLe b a = true :=
  charListLe_total a.toList b.toList

theorem key4Le_refl (x : Nat × Nat × Nat × String) : key4Le x x = true := by
  simp [key4Le, strLe, charListLe_refl]

theorem key4Le_trans (a b c : Nat × Nat × Nat × String)
    (h1 : key4Le a b = true) (h2 : key4Le b c = true) : key4Le a c = true := by
  simp only [key4Le, Bool.or_eq_true, Bool.and_eq_true, decide_eq_true_eq] at h1 h2 ⊢
  rcases h1 with h1 | ⟨e1, h1⟩
  · rcases h2 with h2 | ⟨e2, _⟩
    · exact Or.inl (by omega)
    · exact Or.inl (by omega)
  · rcases h2 with h2 | ⟨e2, h2⟩
    · exact Or.inl (by omega)
    · refine Or.inr ⟨e1.trans e2, ?_⟩
      rcases h1 with h1 | ⟨f1, h1⟩
      · rcases h2 with h2 | ⟨f2, _⟩
        · exact Or.inl (by omega)
        · exact Or.inl (by omega)
      · rcases h2 with h2 | ⟨f2, h2⟩
        · exact Or.inl (by omega)
        · refine Or.inr ⟨f1.trans f2, ?_⟩
          rcases h1 with h1 | ⟨g1, h1⟩
          · rcases h2 with h2 | ⟨g2, _⟩
            · exact Or.inl (by omega)
            · exact Or.inl (by omega)
          · rcases h2 with h2 | ⟨g2, h2⟩
            · exact Or.inl (by omega)
            · exact Or.inr ⟨g1.trans g2, strLe_trans h1 h2⟩

theorem key4Le_total (a b : Nat × Nat × Nat × String) :
    key4Le a b = true ∨ key4Le b a = true := by
  simp only [key4Le, Bool.or_eq_true, Bool.and_eq_true, decide_eq_true_eq]
  rcases Nat.lt_trichotomy a.1 b.1 with h | h | h
  · exact Or.inl (Or.inl h)
  · rcases Nat.lt_trichotomy a.2.1 b.2.1 with h' | h' | h'
    · exact Or.inl (Or.inr ⟨h, Or.inl h'⟩)
    · rcases Nat.lt_trichotomy a.2.2.1 b.2.2.1 with h'' | h'' | h''
      · exact Or.inl (Or.inr ⟨h, Or.inr ⟨h', Or.inl h''⟩⟩)
      · rcases strLe_total a.2.2.2 b.2.2.2 with hs | hs
        · exact Or.inl (Or.inr ⟨h, Or.inr ⟨h', Or.inr ⟨h'', hs⟩⟩⟩)
        · exact Or.inr (Or.inr ⟨h.symm, Or.inr ⟨h'.symm, Or.inr ⟨h''.symm, hs⟩⟩⟩)
      · exact Or.inr (Or.inr ⟨h.symm, Or.inr ⟨h'.symm, Or.inl h''⟩⟩)
    · exact Or.inr (Or.inr ⟨h.symm, Or.inl h'⟩)
  · exact Or.inr (Or.inl h)

/-! ## Stable sort lemmas -/

theorem mem_stableInsert {α : Type} (le : α → α → Bool) (x : α) (l : List α) (z : α) :
    z ∈ stableInsert le x l ↔ z = x ∨ z ∈ l := by
  induction l with
  | nil => simp [stableInsert]
  | cons y ys ih =>
    simp only [stableInsert]
    by_cases hle : le y x
    · simp [hle, ih]
      tauto
    · simp [hle]

theorem stableInsert_sorted {α : Type} (le : α → α → Bool)
    (htrans : ∀ a b c, le a b = true → le b c = true → le a c = true)
    (htotal : ∀ a b, le a b = true ∨ le b a = true)
    (x : α) (l : List α) (h : l.Pairwise (fun a b => le a b = true)) :
    (stableInsert le x l).Pairwise (fun a b => le a b = true) := by
  induction l with
  | nil => simp [stableInsert]
  | cons y ys ih =>
    rcases List.pairwise_cons.mp h with ⟨hy, htail⟩
    simp only [stableInsert]
    by_cases hle : le y x
    · simp only [hle, if_true]
      refine List.pairwise_cons.mpr ⟨?_, ih htail⟩
      intro z hz
      rcases (mem_stableInsert le x ys z).mp hz with hz | hz
      · subst hz; exact hle
      · exact hy z hz
    · simp only [hle, Bool.false_eq_true, if_false]
      have hxy : le x y = true := by
        rcases htotal x y with h' | h'
        · exact h'
        · exact absurd h' (by simp [hle])
      refine List.pairwise_cons.mpr ⟨?_, h⟩
      intro z hz
      rcases List.mem_cons.mp hz with hz | hz
      · subst hz; exact hxy
      · exact htrans x y z hxy (hy z hz)

theorem stableSort_sorted_aux {α : Type} (le : α → α → Bool)
    (htrans : ∀ a b c, le a b = true → le b c = true → le a c = true)
    (htotal : ∀ a b, le a b = true ∨ le b a = true) :
    ∀ (l : List α) (acc : List α), acc.Pairwise (fun a b => le a b = true) →
      (l.foldl (fun acc x => stableInsert le x acc) acc).Pairwise (fun a b => le a b = true) := by
  intro l
  induction l with
  | nil => exact fun acc h => h
  | cons x xs ih =>
    intro acc h
    exact ih (stableInsert le x acc) (stableInsert_sorted le htrans htotal x acc h)

theorem stableSort_sorted {α : Type} (le : α → α → Bool)
    (htrans : ∀ a b c, le a b = true → le b c = true → le a c = true)
    (htotal : ∀ a b, le a b = true ∨ le b a = true) (l : List α) :
    (stableSort le l).Pairwise (fun a b => le a b = true) :=
  stableSort_sorted_aux le htrans htotal l [] (List.Pairwise.nil)

theorem stableInsert_perm {α : Type} (le : α → α → Bool) (x : α) (l : List α) :
    List.Perm (stableInsert le x l) (x :: l) := by
  induction l with
  | nil => rfl
  | cons y ys ih =>
    simp only [stableInsert]
    by_cases hle : le y x
    · simp only [hle, if_true]
      exact (ih.cons y).trans (List.Perm.swap x y ys)
    · simp [hle]

theorem stableSort_perm_aux {α : Type} (le : α → α → Bool) :
    ∀ (l : List α) (acc : List α),
      List.Perm (l.foldl (fun acc x => stableInsert le x acc) acc) (acc ++ l) := by
  intro l
  induction l with
  | nil => intro acc; simp
  | cons x xs ih =>
    intro acc
    refine (ih (stableInsert le x acc)).trans ?_
    have h1 : List.Perm (stableInsert le x acc ++ xs) ((x :: acc) ++ xs) :=
      (stableInsert_perm le x acc).append_right xs
    refine h1.trans ?_
    simpa using List.perm_middle.symm

theorem stableSort_perm {α : Type} (le : α → α → Bool) (l : List α) :
    List.Perm (stableSort le l) l := by
  simpa using stableSort_perm_aux le l []

theorem filter_stableInsert {α : Type} (le : α → α → Bool) (p : α → Bool)
    (htrans : ∀ a b c, le a b = true → le b c = true → le a c = true)
    (tied : ∀ u v, p u = true → p v = true → le u v = true)
    (x : α) (l : List α) (hs : l.Pairwise (fun a b => le a b = true)) :
    (stableInsert le x l).filter p =
      if p x then l.filter p ++ [x] else l.filter p := by
  induction l with
  | nil => by_cases hp : p x <;> simp [stableInsert, List.filter, hp]
  | cons y ys ih =>
    rcases List.pairwise_cons.mp hs with ⟨hy, htail⟩
    simp only [stableInsert]
    by_cases hle : le y x
    · simp only [hle, if_true, List.filter_cons]
      rw [ih htail]
      by_cases hp : p x <;> by_cases hpy : p y <;> simp [hp, hpy]
    · simp only [hle, Bool.false_eq_true, if_false, List.filter_cons]
      by_cases hp : p x
      · simp only [hp, if_true]
        have hnil : (y :: ys).filter p = [] := by
          rw [List.filter_eq_nil_iff]
          intro z hz hpz
          rcases List.mem_cons.mp hz with hz | hz
          · subst hz
            exact absurd (tied z x hpz hp) (by simp [hle])
          · exact absurd (htrans y z x (hy z hz) (tied z x hpz hp)) (by simp [hle])
        rw [List.filter_cons] at hnil
        by_cases hpy : p y
        · simp [hpy] at hnil
        · simp only [hpy, Bool.false_eq_true, if_false] at hnil
          simp [hpy, hnil]
      · simp [hp]

theorem filter_stableSort_aux {α : Type} (le : α → α → Bool) (p : α → Bool)
    (htrans : ∀ a b c, le a b = true → le b c = true → le a c = true)
    (htotal : ∀ a b, le a b = true ∨ le b a = true)
    (tied : ∀ u v, p u = true → p v = true → le u v = true) :
    ∀ (l : List α) (acc : List α), acc.Pairwise (fun a b => le a b = true) →
      (l.foldl (fun acc x => stableInsert le x acc) acc).filter p =
        acc.filter p ++ l.filter p := by
  intro l
  induction l with
  | nil => intro acc _; simp
  | cons x xs ih =>
    intro acc hacc
    rw [List.foldl_cons, ih (stableInsert le x acc)
      (stableInsert_sorted le htrans htotal x acc hacc)]
    rw [filter_stableInsert le p htrans tied x acc hacc]
    by_cases hp : p x <;> simp [hp, List.filter_cons]

theorem filter_stableSort {α : Type} (le : α → α → Bool) (p : α → Bool)
    (htrans : ∀ a b c, le a b = true → le b c = true → le a c = true)
    (htotal : ∀ a b, le a b = true ∨ le b a = true)
    (tied : ∀ u v, p u = true → p v = true → le u v = true) (l : List α) :
    (stableSort le l).filter p = l.filter p := by
  simpa using filter_stableSort_aux le p htrans htotal tied l [] List.Pairwise.nil

theorem sortByKey_sorted {α : Type} (key : α → Nat × Nat × Nat × String) (l : List α) :
    (sortByKey key l).Pairwise (fun a b => key4Le (key a) (key b) = true) :=
  stableSort_sorted (fun a b => key4Le (key a) (key b))
    (fun a b c h1 h2 => key4Le_trans (key a) (key b) (key c) h1 h2)
    (fun a b => key4Le_total (key a) (key b)) l

/-! ## Claim C3 -/

theorem section_key_le_imp (a c : DocEntry)
    (hle : key4Le (section_sort_key a) (section_sort_key c) = true) :
    (pyEndsWith c.path "index.md" = true → pyEndsWith a.path "index.md" = true) ∧
      (pyEndsWith a.path "index.md" = pyEndsWith c.path "index.md" →
        strLe a.path c.path = true) := by
  by_cases ha : pyEndsWith a.path "index.md" <;> by_cases hc : pyEndsWith c.path "index.md"
  · simp only [section_sort_key, ha, hc, if_true, key4Le, Bool.or_eq_true, Bool.and_eq_true,
      decide_eq_true_eq] at hle
    refine ⟨fun _ => ha, fun _ => ?_⟩
    rcases hle with h | ⟨_, h | ⟨_, h | ⟨_, h⟩⟩⟩ <;> first | omega | exact h
  · refine ⟨fun h' => absurd h' (by simp [hc]), fun heq => ?_⟩
    rw [ha] at heq
    rw [Bool.not_eq_true] at hc
    rw [hc] at heq
    exact Bool.noConfusion heq
  · rw [Bool.not_eq_true] at ha
    simp only [section_sort_key, ha, hc, if_true, Bool.false_eq_true, if_false, key4Le,
      Bool.or_eq_true, Bool.and_eq_true, decide_eq_true_eq] at hle
    rcases hle with h | ⟨h, _⟩ <;> omega
  · rw [Bool.not_eq_true] at ha hc
    simp only [section_sort_key, ha, hc, Bool.false_eq_true, if_false, key4Le,
      Bool.or_eq_true, Bool.and_eq_true, decide_eq_true_eq] at hle
    refine ⟨fun h' => absurd h' (by simp [hc]), fun _ => ?_⟩
    rcases hle with h | ⟨_, h | ⟨_, h | ⟨_, h⟩⟩⟩ <;> first | omega | exact h

/-- C3 counterexample: the `AIDE Frame` section produced by
`get_docs_structure` orders a root non-index file before a subdirectory
`index.md`, so within that section an entry ending in `index.md` does not
precede an entry that does not. -/
theorem framework_section_order_cex :
    (get_docs_structure c3FS "DOCS" (some "FRAME") (some []) true []).map
        (fun s => s.docs.map (fun d => d.path)) = [["aaa.md", "python/index.md"]] ∧
      pyEndsWith "python/index.md" "index.md" = true ∧
      pyEndsWith "aaa.md" "index.md" = false :=
  ⟨by decide, by decide, by decide⟩

/-- C3 amended: within every section built by `build_section_from_dir`
(every section of `get_docs_structure` except the framework section),
each entry whose path ends with `index.md` precedes each entry whose path
does not, and entries of the same kind are ordered lexicographically by
path; the framework section instead uses its own grouped order. -/
theorem build_section_docs_order (fs : DocsFS) (base_dir : String)
    (section_path : Option String) (section_name : String) (S : Sect)
    (h : build_section_from_dir fs base_dir section_path section_name = some S) :
    S.docs.Pairwise (fun a c =>
      (pyEndsWith c.path "index.md" = true → pyEndsWith a.path "index.md" = true) ∧
        (pyEndsWith a.path "index.md" = pyEndsWith c.path "index.md" →
          strLe a.path c.path = true)) := by
  simp only [build_section_from_dir] at h
  split at h
  · exact Option.noConfusion h
  · split at h
    · exact Option.noConfusion h
    · have hS := Option.some.inj h
      rw [← hS]
      exact (sortByKey_sorted section_sort_key _).imp
        (fun hab => section_key_le_imp _ _ hab)

theorem build_section_docs_order_witness :
    List.Pairwise (fun a c : DocEntry =>
      (pyEndsWith c.path "index.md" = true → pyEndsWith a.path "index.md" = true) ∧
        (pyEndsWith a.path "index.md" = pyEndsWith c.path "index.md" →
          strLe a.path c.path = true))
      ([{ path := "index.md", title := "Index" }, { path := "alpha.md", title := "Alpha" },
        { path := "intro.md", title := "Intro" }] : List DocEntry) :=
  build_section_docs_order c5FS "docs" none "Overview"
    { name := "Overview",
      docs := [{ path := "index.md", title := "Index" }, { path := "alpha.md", title := "Alpha" },
               { path := "intro.md", title := "Intro" }] }
    (by decide)

/-! ## Claim C5 -/

theorem gds_foldl_inserted (fs : DocsFS) (b : String) (F : Sect) :
    ∀ (defs : List (Option String × String)) (acc : List Sect),
      defs.foldl (gds_step fs b (some F)) (acc, true) = (acc ++ buildDefs fs b defs, true) := by
  intro defs
  induction defs with
  | nil => intro acc; simp [buildDefs]
  | cons sd rest ih =>
    intro acc
    rw [List.foldl_cons]
    by_cases hm : sd.1 = some "AIDE_FRAME"
    · have hstep : gds_step fs b (some F) (acc, true) sd = (acc, true) := by
        simp [gds_step, beq_iff_eq, hm]
      rw [hstep, ih]
      simp [buildDefs, List.filterMap_cons, hm]
    · cases hbs : build_section_from_dir fs b sd.1 sd.2 with
      | some s =>
        have hstep : gds_step fs b (some F) (acc, true) sd = (acc ++ [s], true) := by
          simp [gds_step, beq_iff_eq, hm, hbs]
        rw [hstep, ih]
        simp [buildDefs, List.filterMap_cons, hm, hbs]
      | none =>
        have hstep : gds_step fs b (some F) (acc, true) sd = (acc, true) := by
          simp [gds_step, beq_iff_eq, hm, hbs]
        rw [hstep, ih]
        simp [buildDefs, List.filterMap_cons, hm, hbs]

theorem gds_foldl_split (fs : DocsFS) (b : String) (F : Sect) :
    ∀ (defs : List (Option String × String)) (acc : List Sect),
      defs.foldl (gds_step fs b (some F)) (acc, false) =
        (match splitAtFirstLate defs with
         | none => (acc ++ buildDefs fs b defs, false)
         | some (pre, d, post) =>
           (acc ++ buildDefs fs b pre ++ [F] ++ buildDefs fs b (d :: post), true)) := by
  intro defs
  induction defs with
  | nil => intro acc; simp [splitAtFirstLate, buildDefs]
  | cons sd rest ih =>
    intro acc
    rw [List.foldl_cons]
    by_cases hm : sd.1 = some "AIDE_FRAME"
    · have hnl : isLateDef sd.1 = false := by
        rw [hm]
        decide
      have hstep : gds_step fs b (some F) (acc, false) sd = (acc, false) := by
        simp [gds_step, beq_iff_eq, hm]
      rw [hstep, ih]
      simp only [splitAtFirstLate, hnl, Bool.false_eq_true, if_false]
      cases hsp : splitAtFirstLate rest with
      | none => simp [hsp, buildDefs, List.filterMap_cons, hm]
      | some pds =>
        rcases pds with ⟨pre, d, post⟩
        simp [hsp, buildDefs, List.filterMap_cons, hm]
    · by_cases hl : isLateDef sd.1
      · cases hbs : build_section_from_dir fs b sd.1 sd.2 with
        | some s =>
          have hstep : gds_step fs b (some F) (acc, false) sd = (acc ++ [F] ++ [s], true) := by
            simp [gds_step, beq_iff_eq, hm, hl, hbs]
          rw [hstep, gds_foldl_inserted fs b F rest]
          simp only [splitAtFirstLate, hl, if_true]
          simp [buildDefs, List.filterMap_cons, hm, hbs]
        | none =>
          have hstep : gds_step fs b (some F) (acc, false) sd = (acc ++ [F], true) := by
            simp [gds_step, beq_iff_eq, hm, hl, hbs]
          rw [hstep, gds_foldl_inserted fs b F rest]
          simp only [splitAtFirstLate, hl, if_true]
          simp [buildDefs, List.filterMap_cons, hm, hbs]
      · cases hbs : build_section_from_dir fs b sd.1 sd.2 with
        | some s =>
          have hstep : gds_step fs b (some F) (acc, false) sd = (acc ++ [s], false) := by
            simp [gds_step, beq_iff_eq, hm, hl, hbs]
          rw [hstep, ih]
          simp only [splitAtFirstLate, hl, Bool.false_eq_true, if_false]
          cases hsp : splitAtFirstLate rest with
          | none => simp [hsp, buildDefs, List.filterMap_cons, hm, hbs]
          | some pds =>
            rcases pds with ⟨pre, d, post⟩
            simp [hsp, buildDefs, List.filterMap_cons, hm, hbs]
        | none =>
          have hstep : gds_step fs b (some F) (acc, false) sd = (acc, false) := by
            simp [gds_step, beq_iff_eq, hm, hl, hbs]
          rw [hstep, ih]
          simp only [splitAtFirstLate, hl, Bool.false_eq_true, if_false]
          cases hsp : splitAtFirstLate rest with
          | none => simp [hsp, buildDefs, List.filterMap_cons, hm, hbs]
          | some pds =>
            rcases pds with ⟨pre, d, post⟩
            simp [hsp, buildDefs, List.filterMap_cons, hm, hbs]

/-- C5: when the framework section is non-empty and the main docs
directory exists, `get_docs_structure` inserts the framework section
immediately before the first definition whose path is `deployment` or
`development` (regardless of whether that definition produces a section,
and only at the first such definition); with no such definition it is
appended after all other sections. -/
theorem framework_section_insertion (fs : DocsFS) (docs_dir_key : String)
    (framework_dir_key : Option String)
    (section_defs? : Option (List (Option String × String))) (auto_discover : Bool)
    (excl : List String) (b : String) (F : Sect)
    (hb : fs.pathsGet docs_dir_key = some b) (hbne : (b == "") = false)
    (hdir : fs.isdir b = true)
    (hF : build_framework_section fs framework_dir_key = some F) :
    get_docs_structure fs docs_dir_key framework_dir_key section_defs? auto_discover excl =
      (match splitAtFirstLate
          (used_section_defs fs docs_dir_key section_defs? auto_discover excl) with
       | none =>
         buildDefs fs b (used_section_defs fs docs_dir_key section_defs? auto_discover excl) ++ [F]
       | some (pre, d, post) =>
         buildDefs fs b pre ++ [F] ++ buildDefs fs b (d :: post)) := by
  unfold get_docs_structure
  rw [hb, hF]
  simp only [hbne, hdir, Bool.not_true, Bool.or_self, Bool.false_eq_true, if_false]
  rw [gds_foldl_split fs b F (used_section_defs fs docs_dir_key section_defs? auto_discover excl)
    []]
  cases hsp : splitAtFirstLate
      (used_section_defs fs docs_dir_key section_defs? auto_discover excl) with
  | none => simp [hsp]
  | some pds =>
    rcases pds with ⟨pre, d, post⟩
    simp [hsp]

theorem framework_section_insertion_witness :
    get_docs_structure c5FS "DOCS" (some "FRAME")
        (some [(none, "Overview"), (some "deployment", "Deployment")]) true [] =
      (match splitAtFirstLate (used_section_defs c5FS "DOCS"
          (some [(none, "Overview"), (some "deployment", "Deployment")]) true []) with
       | none =>
         buildDefs c5FS "docs" (used_section_defs c5FS "DOCS"
           (some [(none, "Overview"), (some "deployment", "Deployment")]) true []) ++
           [{ name := "AIDE Frame", docs := [{ path := "f.md", title := "F", framework := true }],
              framework := true }]
       | some (pre, d, post) =>
         buildDefs c5FS "docs" pre ++
           [{ name := "AIDE Frame", docs := [{ path := "f.md", title := "F", framework := true }],
              framework := true }] ++ buildDefs c5FS "docs" (d :: post)) :=
  framework_section_insertion c5FS "DOCS" (some "FRAME")
    (some [(none, "Overview"), (some "deployment", "Deployment")]) true [] "docs"
    { name := "AIDE Frame", docs := [{ path := "f.md", title := "F", framework := true }],
      framework := true }
    (by decide) (by decide) (by decide) (by decide)

/-! ## Claim C4 -/

theorem known_order_cases (p : Option String) (x : Nat × Nat) (h : known_order p = some x) :
    x.1 ≤ 5 ∧ x.2 = 0 := by
  unfold known_order at h
  split at h
  all_goals first
    | exact Option.noConfusion h
    | (obtain rfl := Option.some.inj h; exact ⟨by decide, rfl⟩)

theorem key4Le_fst_le {a b : Nat × Nat × Nat × String} (h : key4Le a b = true) : a.1 ≤ b.1 := by
  simp only [key4Le, Bool.or_eq_true, Bool.and_eq_true, decide_eq_true_eq] at h
  rcases h with h | ⟨h, _⟩ <;> omega

theorem key4Le_snd_le {a b : Nat × Nat × Nat × String} (h : key4Le a b = true)
    (h1 : a.1 = b.1) : a.2.1 ≤ b.2.1 := by
  simp only [key4Le, Bool.or_eq_true, Bool.and_eq_true, decide_eq_true_eq] at h
  rcases h with h | ⟨_, h | ⟨h, _⟩⟩ <;> omega

theorem key4Le_str {a b : Nat × Nat × Nat × String} (h : key4Le a b = true)
    (h1 : a.1 = b.1) (h2 : a.2.1 = b.2.1) (h3 : a.2.2.1 = b.2.2.1) :
    strLe a.2.2.2 b.2.2.2 = true := by
  simp only [key4Le, Bool.or_eq_true, Bool.and_eq_true, decide_eq_true_eq] at h
  rcases h with h | ⟨_, h | ⟨_, h | ⟨_, h⟩⟩⟩ <;> first | omega | exact h

theorem discover_key_shape (e : Option String × String) :
    (∃ r, r ≤ 5 ∧ knownRank e = some r ∧ childRank e = none ∧
      discover_sort_key e = (r, 0, 0, "")) ∨
    (∃ r, r ≤ 5 ∧ knownRank e = none ∧ childRank e = some r ∧
      discover_sort_key e = (r, 1, 0, "")) ∨
    (knownRank e = none ∧ childRank e = none ∧
      discover_sort_key e = (99, 0, 0, entryPathStr e)) := by
  rcases e with ⟨p, n⟩
  cases hko : known_order p with
  | some ab =>
    rcases ab with ⟨a, b⟩
    obtain ⟨ha5, hb0⟩ := known_order_cases p (a, b) hko
    have hb0' : b = 0 := hb0
    subst hb0'
    refine Or.inl ⟨a, ha5, ?_, ?_, ?_⟩
    · simp [knownRank, hko]
    · cases p with
      | none => rfl
      | some s => simp [childRank, hko]
    · simp [discover_sort_key, hko]
  | none =>
    cases p with
    | none => exact absurd hko (by simp [known_order])
    | some s =>
      by_cases hc : pyContainsChar s '/'
      · cases hkp : known_order (some ((splitOnChar '/' s.toList).headD []).asString) with
        | some ab =>
          rcases ab with ⟨a, b⟩
          obtain ⟨ha5, hb0⟩ := known_order_cases _ _ hkp
          have hb0' : b = 0 := hb0
          subst hb0'
          refine Or.inr (Or.inl ⟨a, ha5, ?_, ?_, ?_⟩)
          · simp [knownRank, hko]
          · simp only [childRank, hko, Option.isSome_none, Bool.false_eq_true, if_false, hc,
              if_true, hkp, Option.map_some']
          · simp only [discover_sort_key, hko, hc, if_true, hkp]
        | none =>
          refine Or.inr (Or.inr ⟨?_, ?_, ?_⟩)
          · simp [knownRank, hko]
          · simp only [childRank, hko, Option.isSome_none, Bool.false_eq_true, if_false, hc,
              if_true, hkp, Option.map_none']
          · simp only [discover_sort_key, hko, hc, if_true, hkp, entryPathStr]
            rfl
      · refine Or.inr (Or.inr ⟨?_, ?_, ?_⟩)
        · simp [knownRank, hko]
        · simp [childRank, hko, hc]
        · simp [discover_sort_key, hko, hc, entryPathStr]

theorem childRank_key (e : Option String × String) (r : Nat) (h : childRank e = some r) :
    discover_sort_key e = (r, 1, 0, "") := by
  rcases discover_key_shape e with ⟨r', _, _, hce, _⟩ | ⟨r', _, _, hce, hkey⟩ | ⟨_, hce, _⟩
  · rw [h] at hce
    exact Option.noConfusion hce
  · obtain rfl := Option.some.inj (h.symm.trans hce)
    exact hkey
  · rw [h] at hce
    exact Option.noConfusion hce

theorem auto_discover_eq (fs : DocsFS) (dir_key : String) (include_root : Bool) (max_depth : Nat)
    (excl : List String) (b : String) (hb : fs.pathsGet dir_key = some b)
    (hbne : (b == "") = false) (hdir : fs.isdir b = true) :
    auto_discover_sections fs dir_key include_root max_depth excl =
      sortByKey discover_sort_key (discovered_list fs b include_root max_depth excl) := by
  unfold auto_discover_sections
  rw [hb]
  simp [hbne, hdir]

theorem knownRank_key (e : Option String × String) (r : Nat) (h : knownRank e = some r) :
    r ≤ 5 ∧ discover_sort_key e = (r, 0, 0, "") := by
  rcases discover_key_shape e with ⟨r2, h5, hk, _, hkey⟩ | ⟨r2, _, hk, _, _⟩ | ⟨hk, _, _⟩
  · obtain rfl : r = r2 := Option.some.inj (h.symm.trans hk)
    exact ⟨h5, hkey⟩
  · rw [h] at hk
    exact Option.noConfusion hk
  · rw [h] at hk
    exact Option.noConfusion hk

theorem childRank_le5 (e : Option String × String) (r : Nat) (h : childRank e = some r) :
    r ≤ 5 := by
  rcases discover_key_shape e with ⟨r2, _, _, hc, _⟩ | ⟨r2, h5, _, hc, _⟩ | ⟨_, hc, _⟩
  · rw [h] at hc
    exact Option.noConfusion hc
  · obtain rfl : r = r2 := Option.some.inj (h.symm.trans hc)
    exact h5
  · rw [h] at hc
    exact Option.noConfusion hc

theorem other_entry_key (e : Option String × String) (h : isOtherEntry e = true) :
    discover_sort_key e = (99, 0, 0, entryPathStr e) := by
  rcases discover_key_shape e with ⟨r, _, hk, _, _⟩ | ⟨r, _, _, hc, _⟩ | ⟨_, _, hkey⟩
  · simp [isOtherEntry, hk] at h
  · simp [isOtherEntry, hc] at h
  · exact hkey

theorem not_other_fst_le (e : Option String × String) (h : isOtherEntry e = false) :
    (discover_sort_key e).1 ≤ 5 := by
  rcases discover_key_shape e with ⟨r, h5, _, _, hkey⟩ | ⟨r, h5, _, _, hkey⟩ | ⟨hk, hc, _⟩
  · rw [hkey]
    exact h5
  · rw [hkey]
    exact h5
  · simp [isOtherEntry, hk, hc] at h

theorem other_stays_other (a b : Option String × String)
    (h : key4Le (discover_sort_key a) (discover_sort_key b) = true)
    (ha : isOtherEntry a = true) : isOtherEntry b = true := by
  cases hx : isOtherEntry b with
  | true => rfl
  | false =>
    rw [other_entry_key a ha] at h
    have h1 : (99 : Nat) ≤ (discover_sort_key b).1 := key4Le_fst_le h
    have h2 := not_other_fst_le b hx
    omega

theorem discover_key_le_imp (a b : Option String × String)
    (h : key4Le (discover_sort_key a) (discover_sort_key b) = true) : discoverRel a b := by
  refine ⟨?_, ?_, ?_, ?_, ?_⟩
  · intro ra rb hra hrb
    obtain ⟨_, hka⟩ := knownRank_key a ra hra
    obtain ⟨_, hkb⟩ := knownRank_key b rb hrb
    rw [hka, hkb] at h
    exact key4Le_fst_le h
  · exact other_stays_other a b h
  · intro ha
    have hb := other_stays_other a b h ha
    rw [other_entry_key a ha, other_entry_key b hb] at h
    exact key4Le_str h rfl rfl rfl
  · intro ra rb hca hkb
    have hka := childRank_key a ra hca
    obtain ⟨_, hkb2⟩ := knownRank_key b rb hkb
    rw [hka, hkb2] at h
    have h1 : ra ≤ rb := key4Le_fst_le h
    rcases Nat.lt_or_ge ra rb with hlt | hge
    · exact hlt
    · have heq : ra = rb := Nat.le_antisymm h1 hge
      have h2 : (1 : Nat) ≤ 0 := key4Le_snd_le h heq
      omega
  · intro ra rb hka hcb
    obtain ⟨_, hka2⟩ := knownRank_key a ra hka
    have hkb := childRank_key b rb hcb
    rw [hka2, hkb] at h
    exact key4Le_fst_le h

/-- C4: on any readable docs directory, `auto_discover_sections` returns the
discovered sections ordered pairwise by `discoverRel`: known sections
(root/Overview, requirements, platform, implementation, deployment,
development) in canonical rank order, every other section after all known
and child entries ordered by path string, and children of known parents
before strictly later known sections; for every parent rank the child
entries keep their discovery order (stability); every entry strictly
between a known section of rank r and a child entry of rank r is itself
the known section or a sibling child of rank r (children sit immediately
after their parent); and on the example tree with requirements, platform
and zzz-custom each holding index.md the order is Overview, Requirements,
Platform, Zzz Custom. -/
theorem auto_discover_order (fs : DocsFS) (dir_key : String) (include_root : Bool)
    (max_depth : Nat) (excl : List String) (b : String)
    (hb : fs.pathsGet dir_key = some b) (hbne : (b == "") = false)
    (hdir : fs.isdir b = true) :
    (auto_discover_sections fs dir_key include_root max_depth excl).Pairwise discoverRel ∧
    (∀ r : Nat,
      (auto_discover_sections fs dir_key include_root max_depth excl).filter
          (fun e => childRank e == some r) =
        (discovered_list fs b include_root max_depth excl).filter
          (fun e => childRank e == some r)) ∧
    (∀ (i k j : Fin (auto_discover_sections fs dir_key include_root max_depth excl).length)
        (r : Nat), i < k → k < j →
      knownRank ((auto_discover_sections fs dir_key include_root max_depth excl).get i) =
        some r →
      childRank ((auto_discover_sections fs dir_key include_root max_depth excl).get j) =
        some r →
      (knownRank ((auto_discover_sections fs dir_key include_root max_depth excl).get k) =
        some r ∨
       childRank ((auto_discover_sections fs dir_key include_root max_depth excl).get k) =
        some r)) ∧
    auto_discover_sections c4FS "DOCS_DIR" true 2 [] =
      [(none, "Overview"), (some "requirements", "Requirements"),
       (some "platform", "Platform"), (some "zzz-custom", "Zzz Custom")] := by
  have heq := auto_discover_eq fs dir_key include_root max_depth excl b hb hbne hdir
  have hpair : (auto_discover_sections fs dir_key include_root max_depth excl).Pairwise
      (fun a c => key4Le (discover_sort_key a) (discover_sort_key c) = true) := by
    rw [heq]
    exact sortByKey_sorted discover_sort_key (discovered_list fs b include_root max_depth excl)
  refine ⟨hpair.imp (fun h => discover_key_le_imp _ _ h), ?_, ?_, by decide⟩
  · intro r
    rw [heq]
    exact filter_stableSort (fun a c => key4Le (discover_sort_key a) (discover_sort_key c))
      (fun e => childRank e == some r)
      (fun a c d h1 h2 => key4Le_trans _ _ _ h1 h2)
      (fun a c => key4Le_total _ _)
      (fun u v hu hv => by
        show key4Le (discover_sort_key u) (discover_sort_key v) = true
        rw [childRank_key u r (eq_of_beq hu), childRank_key v r (eq_of_beq hv)]
        exact key4Le_refl _)
      (discovered_list fs b include_root max_depth excl)
  · intro i k j r hik hkj hki hcj
    rw [List.pairwise_iff_get] at hpair
    have h1 := hpair i k hik
    have h2 := hpair k j hkj
    obtain ⟨hr5, hkeyi⟩ := knownRank_key _ r hki
    have hkeyj := childRank_key _ r hcj
    rw [hkeyi] at h1
    rw [hkeyj] at h2
    rcases discover_key_shape
        ((auto_discover_sections fs dir_key include_root max_depth excl).get k) with
      ⟨r2, _, hk, _, hkey⟩ | ⟨r2, _, _, hc, hkey⟩ | ⟨_, _, hkey⟩
    · left
      rw [hkey] at h1 h2
      have ha : r ≤ r2 := key4Le_fst_le h1
      have hb2 : r2 ≤ r := key4Le_fst_le h2
      rw [hk]
      exact congrArg some (Nat.le_antisymm hb2 ha)
    · right
      rw [hkey] at h1 h2
      have ha : r ≤ r2 := key4Le_fst_le h1
      have hb2 : r2 ≤ r := key4Le_fst_le h2
      rw [hc]
      exact congrArg some (Nat.le_antisymm hb2 ha)
    · rw [hkey] at h2
      have hx : (99 : Nat) ≤ r := key4Le_fst_le h2
      omega

theorem auto_discover_order_witness :
    auto_discover_sections c4FS "DOCS_DIR" true 2 [] =
      [(none, "Overview"), (some "requirements", "Requirements"),
       (some "platform", "Platform"), (some "zzz-custom", "Zzz Custom")] :=
  (auto_discover_order c4FS "DOCS_DIR" true 2 [] "docs" rfl rfl rfl).2.2.2
